import Mathlib

/-!
Shallow embedding of the execution-correlation engine of the n8n-debug-mcp
repository (src/correlator.ts and the pure helper methods of src/n8n-client.ts),
together with theorems settling the frozen claims about it.

Modelling conventions:
* JavaScript timestamps (`new Date(s).getTime()`) are modelled as `Int`
  epoch-milliseconds carried directly on the records, so `startedAt : Int`.
* JavaScript numbers used for confidence scores are modelled as `ℚ`;
  the literals 0.3, 0.5, ... are exact decimals.
* JavaScript string truthiness (`if (s)`) is modelled on `Option String`:
  present and non-empty.
* Async methods of the external `N8nClient` data source that perform I/O are
  modelled as fields of a `DataSource` record returning `Except DSError _`;
  an uncaught exception is the `.error` case.
* JS `Array.push` is modelled as list append; `Set`/`Map` as lists with the
  corresponding membership / overwrite-by-key semantics.
-/

namespace N8nDebug

/-- JS truthiness of an optional string field: present and non-empty. -/
def jsTruthy : Option String → Bool
  | some s => !(s == "")
  | none => false

/-- JS `a || b` on two optional string fields (first truthy operand, else none). -/
def jsOr (a b : Option String) : Option String :=
  if jsTruthy a then a else if jsTruthy b then b else none

/-- JS `s || dflt` where `dflt` is a string constant (e.g. `json.method || 'GET'`). -/
def jsOrDefault (a : Option String) (dflt : String) : String :=
  match a with
  | some s => if s == "" then dflt else s
  | none => dflt

/-- Nested `body` object of a node-output payload: the four identifier fields
the core reads from it (`extractUserContext` in n8n-client.ts). -/
structure BodyPayload where
  user_id : Option String := none
  chat_id : Option String := none
  correlation_id : Option String := none
  response_id : Option String := none
deriving Repr, DecidableEq

/-- The fields of a node-output `json` payload that the core reads
(`extractHttpCalls` and `extractUserContext` in n8n-client.ts). -/
structure JsonPayload where
  url : Option String := none
  requestUrl : Option String := none
  method : Option String := none
  user_id : Option String := none
  chat_id : Option String := none
  correlation_id : Option String := none
  response_id : Option String := none
  body : Option BodyPayload := none
deriving Repr, DecidableEq

/-- One item of a node run's `data.main[i]` row (`{ json: ... }`). -/
structure MainItem where
  json : JsonPayload
deriving Repr, DecidableEq

/-- `N8nNodeExecutionData`: one invocation of a node.  `startTime` is epoch ms. -/
structure NodeRun where
  startTime : Int
  data : Option (List (List MainItem)) := none
deriving Repr, DecidableEq

/-- `run.data?.main?.[0]?.[0]` followed by the `mainOutput?.json` check:
the first item of the first output row, if any.  An object field is always
truthy in JS when present, so presence of the item suffices. -/
def mainJson (run : NodeRun) : Option JsonPayload :=
  match run.data with
  | none => none
  | some rows =>
    match rows.head? with
    | none => none
    | some row =>
      match row.head? with
      | none => none
      | some item => some item.json

/-- `N8nExecution`, restricted to the fields the correlation core reads.
`runData` stands for `execution.data?.resultData?.runData`, an insertion-ordered
JS object mapping node name to the node's invocation list. -/
structure N8nExecution where
  id : String
  workflowId : String
  startedAt : Int
  runData : Option (List (String × List NodeRun)) := none
deriving Repr, DecidableEq

/-- `N8nNode`, restricted to the fields the core reads: the type tag and the
`parameters.path` entry used by webhook-trigger nodes. -/
structure N8nNode where
  name : String
  type : String
  path : Option String := none
deriving Repr, DecidableEq

/-- `N8nWorkflow`, restricted to the fields the core reads. -/
structure N8nWorkflow where
  id : String
  name : String
  active : Bool := true
  nodes : Option (List N8nNode) := none
deriving Repr, DecidableEq

/-- Result of `extractUserContext`. -/
structure UserContext where
  userId : Option String := none
  chatId : Option String := none
  correlationId : Option String := none
  responseId : Option String := none
deriving Repr, DecidableEq

/-- One record produced by `extractHttpCalls`. -/
structure HttpCall where
  nodeName : String
  url : String
  method : String
  timestamp : Int
  responseData : JsonPayload
deriving Repr, DecidableEq

/-- `extractWebhookPaths` (n8n-client.ts): every webhook-trigger node's truthy
`parameters.path`, normalized to begin with a slash (`path.startsWith('/')` is
modelled as a character-list prefix test). -/
def extractWebhookPaths (workflow : N8nWorkflow) : List String :=
  match workflow.nodes with
  | none => []
  | some nodes =>
    nodes.filterMap fun node =>
      if node.type == "n8n-nodes-base.webhook" then
        match node.path with
        | some path =>
          if path == "" then none
          else some (if ['/'].isPrefixOf path.toList then path else "/" ++ path)
        | none => none
      else none

/-- `hasSubWorkflowTrigger` (n8n-client.ts). -/
def hasSubWorkflowTrigger (workflow : N8nWorkflow) : Bool :=
  match workflow.nodes with
  | none => false
  | some nodes => nodes.any fun n => n.type == "n8n-nodes-base.executeWorkflowTrigger"

/-- Body of the inner loop of `extractHttpCalls` for one node's runs. -/
def httpCallsOfRuns (nodeName : String) (runs : List NodeRun) : List HttpCall :=
  runs.filterMap fun run =>
    match mainJson run with
    | none => none
    | some json =>
      if jsTruthy json.url then
        match json.url with
        | some u => some ⟨nodeName, u, jsOrDefault json.method "GET", run.startTime, json⟩
        | none => none
      else if jsTruthy json.requestUrl then
        match json.requestUrl with
        | some u => some ⟨nodeName, u, jsOrDefault json.method "GET", run.startTime, json⟩
        | none => none
      else none

/-- `extractHttpCalls` (n8n-client.ts): scan every node invocation's first
output row's first record; if its payload has a truthy `url` or `requestUrl`,
emit a call record (`json.url || json.requestUrl`, `json.method || 'GET'`,
`run.startTime`). -/
def extractHttpCalls (execution : N8nExecution) : List HttpCall :=
  match execution.runData with
  | none => []
  | some runData =>
    (runData.map fun p => httpCallsOfRuns p.1 p.2).flatten

/-- The two unconditional-overwrite update blocks of `extractUserContext`:
first the top-level payload fields, then the nested `body` fields. -/
def updateFromTop (json : JsonPayload) (result : UserContext) : UserContext :=
  let result := if jsTruthy json.user_id then { result with userId := json.user_id } else result
  let result := if jsTruthy json.chat_id then { result with chatId := json.chat_id } else result
  let result := if jsTruthy json.correlation_id then { result with correlationId := json.correlation_id } else result
  if jsTruthy json.response_id then { result with responseId := json.response_id } else result

/-- Nested-body update block of `extractUserContext` (runs only when `json.body`
is present; overwrites the top-level values unconditionally when truthy). -/
def updateFromBody (body : Option BodyPayload) (result : UserContext) : UserContext :=
  match body with
  | none => result
  | some b =>
    let result := if jsTruthy b.user_id then { result with userId := b.user_id } else result
    let result := if jsTruthy b.chat_id then { result with chatId := b.chat_id } else result
    let result := if jsTruthy b.correlation_id then { result with correlationId := b.correlation_id } else result
    if jsTruthy b.response_id then { result with responseId := b.response_id } else result

/-- The doubly-nested loop of `extractUserContext`, flattened: the JS code
iterates `Object.values(runData)` and then each run, and `return` exits both
loops, which is equivalent to iterating the concatenation. -/
def extractUserContextGo : List NodeRun → UserContext → UserContext
  | [], result => result
  | run :: rest, result =>
    match mainJson run with
    | none => extractUserContextGo rest result
    | some json =>
      let result := updateFromBody json.body (updateFromTop json result)
      if jsTruthy result.userId || jsTruthy result.chatId then result
      else extractUserContextGo rest result

/-- `extractUserContext` (n8n-client.ts). -/
def extractUserContext (execution : N8nExecution) : UserContext :=
  match execution.runData with
  | none => {}
  | some runData => extractUserContextGo ((runData.map fun p => p.2).flatten) {}

/-- One application of a JS anchored-prefix replace `s.replace(/^pre/, '')`,
on character lists. -/
def stripPrefixL (pre s : List Char) : List Char :=
  if pre.isPrefixOf s then s.drop pre.length else s

/-- The path normalization of `findWorkflowByWebhook` (correlator.ts line 61):
`path.replace(/^\/webhook/, '').replace(/^\//, '')`. -/
def normalizePathL (s : List Char) : List Char :=
  stripPrefixL ['/'] (stripPrefixL "/webhook".toList s)

/-- String wrapper for `normalizePathL`. -/
def normalizeWebhookPath (s : String) : String :=
  String.mk (normalizePathL s.toList)

/-- `m.path.replace(/^\//, '')` (correlator.ts line 64). -/
def stripLeadingSlash (s : String) : String :=
  String.mk (stripPrefixL ['/'] s.toList)

/-- Substring containment on character lists (JS `haystack.includes(needle)`). -/
def containsSub (needle : List Char) : List Char → Bool
  | [] => needle.isEmpty
  | c :: t => needle.isPrefixOf (c :: t) || containsSub needle t

/-- JS `a.includes(b)`. -/
def strIncludes (a b : String) : Bool :=
  containsSub b.toList a.toList

/-- Modelled from the spec: `findWorkflowByWebhook` "attempt[s] to parse as a URL
and take its path component; if parsing fails, treat the whole input as a path".
The WHATWG `URL` parser used by the source (`new URL(webhookUrl)`) is a platform
library, not code of this repository, so it is modelled minimally: an input
containing a `"://"` separator parses, and its pathname is the part starting at
the first `'/'` after the separator (`"/"` when none follows, as for
`https://host`); an input without `"://"` fails to parse. -/
def urlPathname (s : String) : Option String :=
  match go "://".toList s.toList with
  | none => none
  | some rest =>
    let path := rest.dropWhile fun c => !(c == '/')
    if path.isEmpty then some "/" else some (String.mk path)
where
  /-- Returns the characters after the first occurrence of `pat`, if any. -/
  go (pat : List Char) : List Char → Option (List Char)
    | [] => if pat.isEmpty then some [] else none
    | c :: t =>
      if pat.isPrefixOf (c :: t) then some ((c :: t).drop pat.length)
      else go pat t

/-- `WebhookMapping` (correlator.ts). -/
structure WebhookMapping where
  path : String
  workflowId : String
  workflowName : String
deriving Repr, DecidableEq

/-- `CorrelationResult` (correlator.ts). -/
structure CorrelationResult where
  execution : N8nExecution
  parentId : String
  confidence : ℚ
  method : String
deriving Repr, DecidableEq

/-- The instance state of `ExecutionCorrelator`: `webhookMappings` (a JS array)
and `workflowCache` (a JS `Map`, modelled as an insertion-ordered association
list with overwrite-by-key semantics, see `mapSet`). -/
structure CorrState where
  webhookMappings : List WebhookMapping := []
  workflowCache : List (String × N8nWorkflow) := []
deriving Repr, DecidableEq

/-- JS `Map.set`: overwrite in place when the key exists (keeping its original
insertion position), otherwise append. -/
def mapSet (m : List (String × N8nWorkflow)) (k : String) (v : N8nWorkflow) :
    List (String × N8nWorkflow) :=
  match m with
  | [] => [(k, v)]
  | (k', v') :: rest => if k' == k then (k, v) :: rest else (k', v') :: mapSet rest k v

/-- Errors thrown by the external data source (axios/API failures). -/
abbrev DSError := String

/-- The external `N8nClient` data-source operations the core awaits, as the
correlator calls them: `listWorkflows({active: true})`, `getWorkflow(id)`,
`listExecutions({workflowId, limit, includeData: true})` (the limit argument is
kept because the two passes use 10 and 5), and `getExecution(id, includeData)`.
A field returning `.error e` models the awaited promise rejecting with `e`. -/
structure DataSource where
  listWorkflowsActive : Except DSError (List N8nWorkflow)
  getWorkflow : String → Except DSError N8nWorkflow
  listExecutions : String → Nat → Except DSError (List N8nExecution)
  getExecution : String → Bool → Except DSError N8nExecution

/-- Body of the `for (const wf of workflows)` loop of `initialize()`
(correlator.ts lines 31-44): fetch the full workflow, cache it, and append one
mapping per extracted webhook path. -/
def initLoop (ds : DataSource) : List N8nWorkflow → CorrState → Except DSError CorrState
  | [], corr => .ok corr
  | wf :: rest, corr => do
    let fullWorkflow ← ds.getWorkflow wf.id
    let corr : CorrState :=
      { webhookMappings := corr.webhookMappings ++
          (extractWebhookPaths fullWorkflow).map fun path => ⟨path, wf.id, wf.name⟩
        workflowCache := mapSet corr.workflowCache wf.id fullWorkflow }
    initLoop ds rest corr

/-- `initialize()` (correlator.ts lines 28-45); named `initCorrelator` here. -/
def initCorrelator (ds : DataSource) (corr : CorrState) : Except DSError CorrState := do
  let workflows ← ds.listWorkflowsActive
  initLoop ds workflows corr

/-- `findWorkflowByWebhook` (correlator.ts lines 50-67). -/
def findWorkflowByWebhook (corr : CorrState) (webhookUrl : String) : Option WebhookMapping :=
  let path :=
    match urlPathname webhookUrl with
    | some p => p
    | none => webhookUrl
  let path := normalizeWebhookPath path
  corr.webhookMappings.find? fun m =>
    let mappingPath := stripLeadingSlash m.path
    strIncludes path mappingPath || strIncludes mappingPath path

/-- Return value of `scoreCorrelation`. -/
structure Score where
  confidence : ℚ
  method : String
deriving Repr, DecidableEq

/-- JS `String.split(sep)` for a single-character separator, on character
lists (accumulator holds the current segment reversed).  `"" → [""]`,
`"a--b" → ["a","","b"]`, as in JS. -/
def splitOnCharAux (sep : Char) : List Char → List Char → List (List Char)
  | [], acc => [acc.reverse]
  | c :: t, acc =>
    if c == sep then acc.reverse :: splitOnCharAux sep t []
    else splitOnCharAux sep t (c :: acc)

/-- JS `s.split(sep)` for a single-character separator. -/
def splitOnChar (sep : Char) (s : List Char) : List (List Char) :=
  splitOnCharAux sep s []

/-- `responseId.split('-').slice(0, 2).join('-')` (correlator.ts lines 292-293). -/
def responsePattern (s : String) : String :=
  String.intercalate "-" (((splitOnChar '-' s.toList).take 2).map String.mk)

/-- `scoreCorrelation` (correlator.ts lines 242-304).  The source also computes
`parentStart = new Date(parent.startedAt).getTime()` but never uses it; the
`parent` parameter is kept for signature fidelity. -/
def scoreCorrelation (parent candidate : N8nExecution) (parentContext : UserContext)
    (call : HttpCall) : Score :=
  let confidence : ℚ := 0 + 0.3
  let methods : List String := ["webhook_url"]
  let candidateStart := candidate.startedAt
  let timeDiff := |candidateStart - call.timestamp|
  let (confidence, methods) :=
    if timeDiff < 500 then (confidence + 0.3, methods ++ ["timestamp_exact"])
    else if timeDiff < 2000 then (confidence + 0.2, methods ++ ["timestamp_close"])
    else if timeDiff < 5000 then (confidence + 0.1, methods ++ ["timestamp"])
    else (confidence, methods)
  let candidateContext := extractUserContext candidate
  let (confidence, methods) :=
    if jsTruthy parentContext.userId && candidateContext.userId == parentContext.userId then
      (confidence + 0.3, methods ++ ["user_id"])
    else (confidence, methods)
  let (confidence, methods) :=
    if jsTruthy parentContext.chatId && candidateContext.chatId == parentContext.chatId then
      (confidence + 0.2, methods ++ ["chat_id"])
    else (confidence, methods)
  let (confidence, methods) :=
    if jsTruthy parentContext.correlationId &&
        candidateContext.correlationId == parentContext.correlationId then
      (confidence + 0.5, methods ++ ["correlation_id"])
    else (confidence, methods)
  let (confidence, methods) :=
    if jsTruthy parentContext.responseId && jsTruthy candidateContext.responseId then
      let parentPattern := responsePattern (parentContext.responseId.getD "")
      let candidatePattern := responsePattern (candidateContext.responseId.getD "")
      if parentPattern == candidatePattern then
        (confidence + 0.1, methods ++ ["response_pattern"])
      else (confidence, methods)
    else (confidence, methods)
  ⟨min confidence 1, String.intercalate "+" methods⟩

/-- The `results` array and `visited` set threaded through the search, as a
functional state.  `visited` keeps insertion order; membership is JS
`Set.has`. -/
structure SearchState where
  results : List CorrelationResult
  visited : List String
deriving Repr, DecidableEq

/-- The `for (const candidate of candidates)` loop of the webhook-call pass
(correlator.ts lines 134-165).  `recurse` is the recursive call to
`findCorrelatedExecutions` at depth `currentDepth + 1`, with the accepted
candidate as new current execution and its id as new parent id. -/
def webhookCandidatesLoop
    (recurse : N8nExecution → SearchState → Except DSError SearchState)
    (execution : N8nExecution) (parentId : String) (userContext : UserContext)
    (execStart timeWindowMs : Int) (call : HttpCall) :
    List N8nExecution → SearchState → Except DSError SearchState
  | [], st => .ok st
  | candidate :: rest, st =>
    if st.visited.contains candidate.id then
      webhookCandidatesLoop recurse execution parentId userContext execStart timeWindowMs call rest st
    else
      let candidateStart := candidate.startedAt
      if candidateStart < execStart - 1000 || candidateStart > execStart + timeWindowMs then
        webhookCandidatesLoop recurse execution parentId userContext execStart timeWindowMs call rest st
      else
        let score := scoreCorrelation execution candidate userContext call
        if score.confidence > 0.5 then do
          let st : SearchState :=
            ⟨st.results ++ [⟨candidate, parentId, score.confidence, score.method⟩],
             st.visited ++ [candidate.id]⟩
          let st ← recurse candidate st
          webhookCandidatesLoop recurse execution parentId userContext execStart timeWindowMs call rest st
        else
          webhookCandidatesLoop recurse execution parentId userContext execStart timeWindowMs call rest st

/-- The `for (const call of httpCalls)` loop of the webhook-call pass
(correlator.ts lines 123-166): resolve the call through the webhook index (a
miss silently skips the call), list up to 10 recent executions of the resolved
workflow (a listing failure propagates), and process the candidates. -/
def httpCallsLoop
    (recurse : N8nExecution → SearchState → Except DSError SearchState)
    (corr : CorrState) (ds : DataSource)
    (execution : N8nExecution) (parentId : String) (userContext : UserContext)
    (execStart timeWindowMs : Int) :
    List HttpCall → SearchState → Except DSError SearchState
  | [], st => .ok st
  | call :: rest, st =>
    match findWorkflowByWebhook corr call.url with
    | none => httpCallsLoop recurse corr ds execution parentId userContext execStart timeWindowMs rest st
    | some mapping => do
      let candidates ← ds.listExecutions mapping.workflowId 10
      let st ← webhookCandidatesLoop recurse execution parentId userContext execStart timeWindowMs call candidates st
      httpCallsLoop recurse corr ds execution parentId userContext execStart timeWindowMs rest st

/-- The inline scoring block of the sub-workflow pass (correlator.ts lines
193-217): timestamp bonus against `|candidateStart - execStart|` (0.3 under
2000ms, else 0.2 under 5000ms), 0.4 for userId match, 0.3 for chatId match;
returns the unclamped sum and the contributing method names. -/
def subWorkflowScore (userContext candidateContext : UserContext)
    (candidateStart execStart : Int) : ℚ × List String :=
  let confidence : ℚ := 0
  let methods : List String := []
  let timeDiff := |candidateStart - execStart|
  let (confidence, methods) :=
    if timeDiff < 2000 then (confidence + 0.3, methods ++ ["timestamp"])
    else if timeDiff < 5000 then (confidence + 0.2, methods ++ ["timestamp"])
    else (confidence, methods)
  let (confidence, methods) :=
    if jsTruthy userContext.userId && candidateContext.userId == userContext.userId then
      (confidence + 0.4, methods ++ ["user_id"])
    else (confidence, methods)
  let (confidence, methods) :=
    if jsTruthy userContext.chatId && candidateContext.chatId == userContext.chatId then
      (confidence + 0.3, methods ++ ["chat_id"])
    else (confidence, methods)
  (confidence, methods)

/-- The `for (const candidate of candidates)` loop of the sub-workflow pass
(correlator.ts lines 184-238), with its inline scoring (time window
`[execStart, execStart + timeWindowMs]`, no -1s grace; the recorded confidence
is the unclamped sum and the method is the '+'-joined label list). -/
def subWorkflowCandidatesLoop
    (recurse : N8nExecution → SearchState → Except DSError SearchState)
    (parentId : String) (userContext : UserContext)
    (execStart timeWindowMs : Int) :
    List N8nExecution → SearchState → Except DSError SearchState
  | [], st => .ok st
  | candidate :: rest, st =>
    if st.visited.contains candidate.id then
      subWorkflowCandidatesLoop recurse parentId userContext execStart timeWindowMs rest st
    else
      let candidateStart := candidate.startedAt
      if candidateStart < execStart || candidateStart > execStart + timeWindowMs then
        subWorkflowCandidatesLoop recurse parentId userContext execStart timeWindowMs rest st
      else
        let score := subWorkflowScore userContext (extractUserContext candidate)
          candidateStart execStart
        if score.1 > 0.5 then do
          let st : SearchState :=
            ⟨st.results ++ [⟨candidate, parentId, score.1, String.intercalate "+" score.2⟩],
             st.visited ++ [candidate.id]⟩
          let st ← recurse candidate st
          subWorkflowCandidatesLoop recurse parentId userContext execStart timeWindowMs rest st
        else
          subWorkflowCandidatesLoop recurse parentId userContext execStart timeWindowMs rest st

/-- The `for (const workflowId of workflowsWithSubTrigger)` loop of the
sub-workflow pass (correlator.ts lines 175-239): skip the current execution's
own workflow, list up to 5 recent executions (a listing failure propagates),
and process the candidates. -/
def subWorkflowsLoop
    (recurse : N8nExecution → SearchState → Except DSError SearchState)
    (ds : DataSource) (ownWorkflowId : String) (parentId : String)
    (userContext : UserContext) (execStart timeWindowMs : Int) :
    List String → SearchState → Except DSError SearchState
  | [], st => .ok st
  | workflowId :: rest, st =>
    if workflowId == ownWorkflowId then
      subWorkflowsLoop recurse ds ownWorkflowId parentId userContext execStart timeWindowMs rest st
    else do
      let candidates ← ds.listExecutions workflowId 5
      let st ← subWorkflowCandidatesLoop recurse parentId userContext execStart timeWindowMs candidates st
      subWorkflowsLoop recurse ds ownWorkflowId parentId userContext execStart timeWindowMs rest st

/-- `findCorrelatedExecutions` (correlator.ts lines 103-240), with the depth
counter replaced by the remaining fuel `maxDepth - currentDepth`: the source
returns immediately when `currentDepth >= maxDepth` (fuel 0) and recurses at
`currentDepth + 1` (fuel - 1).  The source also computes `windowStart` and
`windowEnd` ISO strings (lines 115-116) that are never passed to any call;
they are omitted as dead code.  The time-window filtering itself happens
inside the candidate loops, as in the source. -/
def findCorrelatedExecutionsAux (corr : CorrState) (ds : DataSource) (timeWindowMs : Int) :
    Nat → N8nExecution → String → SearchState → Except DSError SearchState
  | 0, _, _, st => .ok st
  | fuel + 1, execution, parentId, st => do
    let execStart := execution.startedAt
    let userContext := extractUserContext execution
    let httpCalls := extractHttpCalls execution
    let st ← httpCallsLoop
      (fun c st => findCorrelatedExecutionsAux corr ds timeWindowMs fuel c c.id st)
      corr ds execution parentId userContext execStart timeWindowMs httpCalls st
    let workflowsWithSubTrigger :=
      (corr.workflowCache.filter fun p => hasSubWorkflowTrigger p.2).map fun p => p.1
    subWorkflowsLoop
      (fun c st => findCorrelatedExecutionsAux corr ds timeWindowMs fuel c c.id st)
      ds execution.workflowId parentId userContext execStart timeWindowMs workflowsWithSubTrigger st

/-- `findCorrelatedExecutions` with the source's `(maxDepth, currentDepth)`
signature. -/
def findCorrelatedExecutions (corr : CorrState) (ds : DataSource) (timeWindowMs : Int)
    (maxDepth currentDepth : Nat) (execution : N8nExecution) (parentId : String)
    (st : SearchState) : Except DSError SearchState :=
  findCorrelatedExecutionsAux corr ds timeWindowMs (maxDepth - currentDepth) execution parentId st

/-- The options record of `correlateExecutions`, with the source defaults. -/
structure CorrOptions where
  timeWindowMs : Int := 30000
  maxDepth : Nat := 5
deriving Repr, DecidableEq

/-- `correlateExecutions` (correlator.ts lines 72-101), returning the final
instance state and search state as well (the source mutates the instance and
the `results`/`visited` locals; `correlateExecutions` below projects out the
returned `results` array). -/
def correlateExecutionsFull (ds : DataSource) (corr : CorrState) (rootExecutionId : String)
    (options : CorrOptions) : Except DSError (CorrState × SearchState) :=
  (if corr.webhookMappings.isEmpty then initCorrelator ds corr else Except.ok corr) >>= fun corr =>
  ds.getExecution rootExecutionId true >>= fun rootExecution =>
  findCorrelatedExecutions corr ds options.timeWindowMs options.maxDepth 0
    rootExecution rootExecutionId ⟨[], [rootExecutionId]⟩ >>= fun st =>
  Except.ok (corr, st)

/-- The value `correlateExecutions` returns to its caller. -/
def correlateExecutions (ds : DataSource) (corr : CorrState) (rootExecutionId : String)
    (options : CorrOptions) : Except DSError (List CorrelationResult) :=
  (correlateExecutionsFull ds corr rootExecutionId options).map fun p => p.2.results

/-! ### Path normalization: helper lemmas -/

theorem not_prefix_of_isPrefixOf_false {pre l : List Char}
    (h : pre.isPrefixOf l = false) : ¬ pre <+: l := by
  intro hp
  rw [List.isPrefixOf_iff_prefix.mpr hp] at h
  simp at h

theorem stripPrefixL_of_false {pre s : List Char} (h : pre.isPrefixOf s = false) :
    stripPrefixL pre s = s := by
  unfold stripPrefixL
  rw [h]
  simp

theorem stripPrefixL_append (pre t : List Char) :
    stripPrefixL pre (pre ++ t) = t := by
  unfold stripPrefixL
  rw [List.isPrefixOf_iff_prefix.mpr ⟨t, rfl⟩]
  simp

/-- A list with no leading slash is unchanged by webhook path normalization. -/
theorem normalizePathL_of_no_slash (u : List Char) (h : ¬ ['/'] <+: u) :
    normalizePathL u = u := by
  have h8 : "/webhook".toList.isPrefixOf u = false := by
    cases hb : "/webhook".toList.isPrefixOf u with
    | false => rfl
    | true =>
      have hw : ['/'] <+: "/webhook".toList := ⟨"webhook".toList, rfl⟩
      exact absurd (hw.trans (List.isPrefixOf_iff_prefix.mp hb)) h
  have h1 : ['/'].isPrefixOf u = false := by
    cases hb : ['/'].isPrefixOf u with
    | false => rfl
    | true => exact absurd (List.isPrefixOf_iff_prefix.mp hb) h
  unfold normalizePathL
  rw [stripPrefixL_of_false h8, stripPrefixL_of_false h1]

/-- Webhook path normalization (on character lists) is idempotent for every
input that does not begin with `"//"` or `"/webhook//"`. -/
theorem normalizePathL_idem (l : List Char)
    (h2 : ¬ "//".toList <+: l) (h8 : ¬ "/webhook//".toList <+: l) :
    normalizePathL (normalizePathL l) = normalizePathL l := by
  cases hp : "/webhook".toList.isPrefixOf l with
  | true =>
    obtain ⟨t, rfl⟩ := List.isPrefixOf_iff_prefix.mp hp
    have hstep : normalizePathL ("/webhook".toList ++ t) = stripPrefixL ['/'] t := by
      unfold normalizePathL
      rw [stripPrefixL_append]
    rw [hstep]
    have ht : ¬ "//".toList <+: t := fun hc =>
      h8 ((List.prefix_append_right_inj "/webhook".toList).mpr hc)
    cases h1 : ['/'].isPrefixOf t with
    | true =>
      obtain ⟨u, hu'⟩ := List.isPrefixOf_iff_prefix.mp h1
      subst hu'
      rw [stripPrefixL_append]
      exact normalizePathL_of_no_slash u fun hc =>
        ht (List.cons_prefix_cons.mpr ⟨rfl, hc⟩)
    | false =>
      rw [stripPrefixL_of_false h1]
      exact normalizePathL_of_no_slash t (not_prefix_of_isPrefixOf_false h1)
  | false =>
    have hl : normalizePathL l = stripPrefixL ['/'] l := by
      unfold normalizePathL
      rw [stripPrefixL_of_false hp]
    rw [hl]
    cases h1 : ['/'].isPrefixOf l with
    | true =>
      obtain ⟨u, hu'⟩ := List.isPrefixOf_iff_prefix.mp h1
      subst hu'
      rw [stripPrefixL_append]
      exact normalizePathL_of_no_slash u fun hc =>
        h2 (List.cons_prefix_cons.mpr ⟨rfl, hc⟩)
    | false =>
      rw [stripPrefixL_of_false h1]
      exact normalizePathL_of_no_slash l (not_prefix_of_isPrefixOf_false h1)

/-- C6, counterexample: the claim quantifies over every input string, but the
normalization is not idempotent on `"//webhook/x"`: one pass yields
`"/webhook/x"` (only the leading slash is stripped, since the string does not
begin with `"/webhook"`), and a second pass strips `"/webhook"` and the next
slash, yielding `"x"`. -/
theorem webhook_normalization_not_idempotent :
    normalizeWebhookPath (normalizeWebhookPath "//webhook/x") ≠
      normalizeWebhookPath "//webhook/x" := by
  decide

/-- C6, amended: the webhook path normalization of `findWorkflowByWebhook`
(strip a leading `"/webhook"`, then strip a leading slash) is idempotent for
every input string that does not begin with `"//"` or `"/webhook//"`; on those
remaining inputs a second pass can strip further (see the counterexample). -/
theorem webhook_normalization_idempotent (s : String)
    (h2 : "//".toList.isPrefixOf s.toList = false)
    (h8 : "/webhook//".toList.isPrefixOf s.toList = false) :
    normalizeWebhookPath (normalizeWebhookPath s) = normalizeWebhookPath s := by
  show String.mk (normalizePathL (normalizePathL s.toList)) = String.mk (normalizePathL s.toList)
  exact congrArg String.mk
    (normalizePathL_idem s.toList (not_prefix_of_isPrefixOf_false h2)
      (not_prefix_of_isPrefixOf_false h8))

/-- Witness for the amended C6 theorem at the concrete input `"/webhook/agent"`. -/
theorem webhook_normalization_idempotent_witness :
    "//".toList.isPrefixOf "/webhook/agent".toList = false ∧
      normalizeWebhookPath (normalizeWebhookPath "/webhook/agent") =
        normalizeWebhookPath "/webhook/agent" :=
  ⟨by decide, webhook_normalization_idempotent "/webhook/agent" (by decide) (by decide)⟩

/-! ### C9: empty normalized path matches the first mapping -/

theorem containsSub_nil_left (l : List Char) : containsSub [] l = true := by
  cases l <;> simp [containsSub, List.isPrefixOf]

/-- C9: for every input whose normalized path is the empty string and every
non-empty webhook index, `findWorkflowByWebhook` returns the first mapping in
the index: the symmetric containment test succeeds because the empty string is
a substring of every mapping path. -/
theorem findWorkflowByWebhook_empty_path (corr : CorrState) (input : String)
    (m : WebhookMapping) (rest : List WebhookMapping)
    (hmaps : corr.webhookMappings = m :: rest)
    (hempty : normalizeWebhookPath ((urlPathname input).getD input) = "") :
    findWorkflowByWebhook corr input = some m := by
  unfold findWorkflowByWebhook
  rw [hmaps]
  cases hurl : urlPathname input with
  | none =>
    rw [hurl] at hempty
    simp only [Option.getD] at hempty
    simp [hempty, strIncludes, containsSub_nil_left]
  | some p =>
    rw [hurl] at hempty
    simp only [Option.getD] at hempty
    simp [hempty, strIncludes, containsSub_nil_left]

/-- Witness for C9: the bare path `"/webhook"` (which fails URL parsing and
normalizes to the empty string) returns the first of two mappings. -/
theorem findWorkflowByWebhook_empty_path_witness :
    findWorkflowByWebhook
      ⟨[⟨"agent", "W2", "Agent"⟩, ⟨"other", "W3", "Other"⟩], []⟩ "/webhook" =
      some ⟨"agent", "W2", "Agent"⟩ :=
  findWorkflowByWebhook_empty_path _ "/webhook" _ _ rfl (by decide)

/-! ### C3: the webhook scorer computes an additive formula -/

theorem stage_add (g : Prop) [Decidable g] (c : ℚ) (m : List String) (b : ℚ) (l : String) :
    (if g then (c + b, m ++ [l]) else (c, m)) =
      (c + (if g then b else 0), m ++ (if g then [l] else [])) := by
  split_ifs <;> simp

theorem ts_stage (d : Int) (c : ℚ) (m : List String) :
    (if d < 500 then (c + 0.3, m ++ ["timestamp_exact"])
     else if d < 2000 then (c + 0.2, m ++ ["timestamp_close"])
     else if d < 5000 then (c + 0.1, m ++ ["timestamp"])
     else (c, m)) =
      (c + (if d < 500 then 0.3 else if d < 2000 then 0.2 else if d < 5000 then 0.1 else 0),
       m ++ (if d < 500 then ["timestamp_exact"] else if d < 2000 then ["timestamp_close"]
         else if d < 5000 then ["timestamp"] else [])) := by
  split_ifs <;> simp

theorem resp_stage (a b c : Bool) (conf : ℚ) (m : List String) :
    (if a && b then
      (conf + (if c then (0.1 : ℚ) else 0), m ++ (if c then ["response_pattern"] else []))
     else (conf, m)) =
      (conf + (if a && (b && c) then (0.1 : ℚ) else 0),
       m ++ (if a && (b && c) then ["response_pattern"] else [])) := by
  cases a <;> cases b <;> cases c <;> simp

/-- The claim's formulation of the webhook scorer: min of 0.3 base plus
independent bonuses (timestamp measured against the HTTP call's own timestamp;
0.3 userId, 0.2 chatId, 0.5 correlationId, 0.1 response-pattern) clamped at
1.0, with the '+'-joined contributing labels in evaluation order. -/
def scoreCorrelationSpec (candidate : N8nExecution) (parentContext : UserContext)
    (call : HttpCall) : Score :=
  let cand := extractUserContext candidate
  let d := |candidate.startedAt - call.timestamp|
  let tsBonus : ℚ := if d < 500 then 0.3 else if d < 2000 then 0.2 else if d < 5000 then 0.1 else 0
  let userB : ℚ := if jsTruthy parentContext.userId && (cand.userId == parentContext.userId) then 0.3 else 0
  let chatB : ℚ := if jsTruthy parentContext.chatId && (cand.chatId == parentContext.chatId) then 0.2 else 0
  let corrB : ℚ := if jsTruthy parentContext.correlationId && (cand.correlationId == parentContext.correlationId) then 0.5 else 0
  let respB : ℚ :=
    if jsTruthy parentContext.responseId && (jsTruthy cand.responseId &&
        (responsePattern (parentContext.responseId.getD "") == responsePattern (cand.responseId.getD ""))) then 0.1
    else 0
  let labels :=
    ["webhook_url"] ++
    (if d < 500 then ["timestamp_exact"] else if d < 2000 then ["timestamp_close"]
      else if d < 5000 then ["timestamp"] else []) ++
    (if jsTruthy parentContext.userId && (cand.userId == parentContext.userId) then ["user_id"] else []) ++
    (if jsTruthy parentContext.chatId && (cand.chatId == parentContext.chatId) then ["chat_id"] else []) ++
    (if jsTruthy parentContext.correlationId && (cand.correlationId == parentContext.correlationId) then ["correlation_id"] else []) ++
    (if jsTruthy parentContext.responseId && (jsTruthy cand.responseId &&
        (responsePattern (parentContext.responseId.getD "") == responsePattern (cand.responseId.getD ""))) then ["response_pattern"] else [])
  ⟨min (0.3 + tsBonus + userB + chatB + corrB + respB) 1, String.intercalate "+" labels⟩

theorem scoreCorrelation_eq_spec (parent candidate : N8nExecution)
    (parentContext : UserContext) (call : HttpCall) :
    scoreCorrelation parent candidate parentContext call =
      scoreCorrelationSpec candidate parentContext call := by
  simp only [scoreCorrelation, scoreCorrelationSpec]
  simp only [ts_stage]
  simp only [stage_add]
  simp only [resp_stage]
  simp only [Score.mk.injEq, zero_add, List.append_assoc]

/-- The concrete scenario of the claim: one HTTP call, candidate of the target
workflow starting 300ms after the call timestamp, matching `user_id` only. -/
def c3json : JsonPayload := { user_id := some "u1" }

def c3rootJson : JsonPayload :=
  { url := some "https://host/webhook/agent", user_id := some "u1" }

def c3candidate : N8nExecution :=
  { id := "E2", workflowId := "W2", startedAt := 1300,
    runData := some [("Webhook", [⟨1300, some [[⟨c3json⟩]]⟩])] }

def c3parent : N8nExecution :=
  { id := "E1", workflowId := "W1", startedAt := 0,
    runData := some [("HTTP Request", [⟨1000, some [[⟨c3rootJson⟩]]⟩])] }

def c3call : HttpCall :=
  ⟨"HTTP Request", "https://host/webhook/agent", "GET", 1000, c3rootJson⟩

theorem c3_concrete_scenario :
    scoreCorrelation c3parent c3candidate (extractUserContext c3parent) c3call =
      ⟨0.9, "webhook_url+timestamp_exact+user_id"⟩ := by
  have h : extractUserContext c3parent = { userId := some "u1" } := by decide
  have hc : extractUserContext c3candidate = { userId := some "u1" } := by decide
  rw [h]
  unfold scoreCorrelation
  rw [hc]
  norm_num [c3candidate, c3call, jsTruthy, Score.mk.injEq]
  simp only [if_neg (show ¬ ("u1" = "") by decide)]
  refine ⟨?_, by decide⟩
  norm_num [min_def]

/-- C3: the webhook scorer returns confidence = min(0.3 base + timestamp bonus
against the HTTP call's own timestamp (0.3 under 500ms, 0.2 under 2000ms, 0.1
under 5000ms) + 0.3 userId + 0.2 chatId + 0.5 correlationId + 0.1 matching
response-id prefix pattern, 1.0), with the method label the '+'-joined
contributing signal names in evaluation order; and on the claim's concrete
scenario (candidate starting 300ms after the call with only a matching
user_id) it returns confidence 0.9 with method
"webhook_url+timestamp_exact+user_id". -/
theorem c3_scoreCorrelation_formula :
    (∀ (parent candidate : N8nExecution) (parentContext : UserContext) (call : HttpCall),
      scoreCorrelation parent candidate parentContext call =
        scoreCorrelationSpec candidate parentContext call) ∧
    scoreCorrelation c3parent c3candidate (extractUserContext c3parent) c3call =
      ⟨0.9, "webhook_url+timestamp_exact+user_id"⟩ :=
  ⟨scoreCorrelation_eq_spec, c3_concrete_scenario⟩

/-! ### C7: extractUserContext scanning order, body overwrite, early return -/


def contextFound (ctx : UserContext) : Bool :=
  jsTruthy ctx.userId || jsTruthy ctx.chatId

theorem extractUserContextGo_append (rs₁ rs₂ : List NodeRun) (acc : UserContext)
    (hacc : contextFound acc = false)
    (hfound : contextFound (extractUserContextGo rs₁ acc) = true) :
    extractUserContextGo (rs₁ ++ rs₂) acc = extractUserContextGo rs₁ acc := by
  induction rs₁ generalizing acc with
  | nil =>
    rw [extractUserContextGo] at hfound
    rw [hacc] at hfound
    cases hfound
  | cons run rest ih =>
    cases hm : mainJson run with
    | none =>
      simp only [List.cons_append, extractUserContextGo, hm] at hfound ⊢
      exact ih acc hacc hfound
    | some json =>
      simp only [List.cons_append, extractUserContextGo, hm] at hfound ⊢
      by_cases hf : (jsTruthy (updateFromBody json.body (updateFromTop json acc)).userId ||
          jsTruthy (updateFromBody json.body (updateFromTop json acc)).chatId) = true
      · rw [if_pos hf, if_pos hf]
      · rw [if_neg hf] at hfound
        rw [if_neg hf, if_neg hf]
        have hacc' : contextFound (updateFromBody json.body (updateFromTop json acc)) = false := by
          simpa [contextFound] using hf
        exact ih _ hacc' hfound

theorem extractUserContext_early_return (e₁ e₂ : N8nExecution)
    (rd₁ rd₂ : List (String × List NodeRun))
    (h₁ : e₁.runData = some rd₁) (h₂ : e₂.runData = some (rd₁ ++ rd₂))
    (hfound : contextFound (extractUserContext e₁) = true) :
    extractUserContext e₂ = extractUserContext e₁ := by
  unfold extractUserContext at hfound ⊢
  rw [h₁] at hfound
  rw [h₁, h₂]
  dsimp only at hfound ⊢
  rw [List.map_append, List.flatten_append]
  exact extractUserContextGo_append _ _ _ rfl hfound


theorem updateFromBody_overrides (json : JsonPayload) (b : BodyPayload) (acc : UserContext)
    (hb : json.body = some b) :
    (jsTruthy b.user_id = true →
      (updateFromBody json.body (updateFromTop json acc)).userId = b.user_id) ∧
    (jsTruthy b.chat_id = true →
      (updateFromBody json.body (updateFromTop json acc)).chatId = b.chat_id) ∧
    (jsTruthy b.correlation_id = true →
      (updateFromBody json.body (updateFromTop json acc)).correlationId = b.correlation_id) ∧
    (jsTruthy b.response_id = true →
      (updateFromBody json.body (updateFromTop json acc)).responseId = b.response_id) := by
  rw [hb]
  unfold updateFromBody
  refine ⟨fun h => ?_, fun h => ?_, fun h => ?_, fun h => ?_⟩ <;>
    simp only [h, if_true] <;> split_ifs <;> simp

def c7run1 : List NodeRun := [⟨0, some [[⟨{ user_id := some "u9" }⟩]]⟩]

def c7run2 : List NodeRun :=
  [⟨5, some [[⟨{ correlation_id := some "corr-1", response_id := some "RSP-X-1" }⟩]]⟩]

def c7e1 : N8nExecution :=
  { id := "E7a", workflowId := "W7", startedAt := 0, runData := some [("A", c7run1)] }

def c7exec : N8nExecution :=
  { id := "E7", workflowId := "W7", startedAt := 0,
    runData := some [("A", c7run1), ("B", c7run2)] }

theorem c7_extractUserContext_behavior :
    (∀ (e₁ e₂ : N8nExecution) (rd₁ rd₂ : List (String × List NodeRun)),
      e₁.runData = some rd₁ → e₂.runData = some (rd₁ ++ rd₂) →
      contextFound (extractUserContext e₁) = true →
      extractUserContext e₂ = extractUserContext e₁) ∧
    (∀ (json : JsonPayload) (b : BodyPayload) (acc : UserContext), json.body = some b →
      (jsTruthy b.user_id = true →
        (updateFromBody json.body (updateFromTop json acc)).userId = b.user_id) ∧
      (jsTruthy b.chat_id = true →
        (updateFromBody json.body (updateFromTop json acc)).chatId = b.chat_id) ∧
      (jsTruthy b.correlation_id = true →
        (updateFromBody json.body (updateFromTop json acc)).correlationId = b.correlation_id) ∧
      (jsTruthy b.response_id = true →
        (updateFromBody json.body (updateFromTop json acc)).responseId = b.response_id)) ∧
    extractUserContext c7exec =
      { userId := some "u9", chatId := none, correlationId := none, responseId := none } :=
  ⟨extractUserContext_early_return, updateFromBody_overrides, by decide⟩

theorem c7_witness :
    c7e1.runData = some [("A", c7run1)] ∧
    c7exec.runData = some ([("A", c7run1)] ++ [("B", c7run2)]) ∧
    contextFound (extractUserContext c7e1) = true ∧
    extractUserContext c7exec = extractUserContext c7e1 ∧
    (JsonPayload.body { user_id := some "top", body := some { user_id := some "nested" } } =
      some { user_id := some "nested" }) ∧
    (updateFromBody (some { user_id := some "nested" })
      (updateFromTop { user_id := some "top", body := some { user_id := some "nested" } } {})).userId =
        some "nested" :=
  ⟨rfl, rfl, by decide,
    c7_extractUserContext_behavior.1 c7e1 c7exec _ _ rfl rfl (by decide),
    rfl,
    (c7_extractUserContext_behavior.2.1
      { user_id := some "top", body := some { user_id := some "nested" } }
      { user_id := some "nested" } {} rfl).1 (by decide)⟩



/-! ### Search invariant -/

def resultIds (rs : List CorrelationResult) : List String :=
  rs.map fun r => r.execution.id

/-- A parent-child chain of correlation results anchored at `pid`: each
element's `parentId` is the previous element's execution id. -/
def chainLinks (pid : String) : List CorrelationResult → Prop
  | [] => True
  | r :: rest => r.parentId = pid ∧ chainLinks r.execution.id rest

/-- The relation between the search state before and after a (partial) run of
the search rooted at parent id `p` with remaining depth budget `n`:
the results grow by a block `delta`, the visited set by exactly the ids of
`delta` (fresh and duplicate-free), every new result has confidence in
(0.5, 1], an id satisfying `ok`, a parent inside the block or `p` itself,
and every parent-chain anchored at `p` inside the block has length at most
`n`. -/
def SearchInv (ok : String → Prop) (p : String) (n : Nat) (st st' : SearchState) : Prop :=
  ∃ delta,
    st'.results = st.results ++ delta ∧
    st'.visited = st.visited ++ resultIds delta ∧
    (resultIds delta).Nodup ∧
    (∀ i ∈ resultIds delta, i ∉ st.visited) ∧
    (∀ r ∈ delta, (0.5 : ℚ) < r.confidence ∧ r.confidence ≤ 1) ∧
    (∀ r ∈ delta, ok r.execution.id) ∧
    (∀ r ∈ delta, r.parentId = p ∨ r.parentId ∈ resultIds delta) ∧
    (∀ chain, chainLinks p chain → (∀ r ∈ chain, r ∈ delta) → chain.length ≤ n)

theorem resultIds_append (a b : List CorrelationResult) :
    resultIds (a ++ b) = resultIds a ++ resultIds b :=
  List.map_append _ a b

theorem SearchInv.same (ok : String → Prop) (p : String) (n : Nat) (st : SearchState) :
    SearchInv ok p n st st := by
  refine ⟨[], by simp, by simp [resultIds], by simp [resultIds], by simp [resultIds],
    by simp, by simp, by simp, ?_⟩
  intro chain hlinks hmem
  cases chain with
  | nil => simp
  | cons r rest => exact absurd (hmem r (by simp)) (by simp)

theorem SearchInv.visited_subset {ok p n st st'} (h : SearchInv ok p n st st') :
    st.visited ⊆ st'.visited := by
  obtain ⟨d, _, hv, _⟩ := h
  rw [hv]
  exact List.subset_append_left _ _

/-- Chains whose anchor avoids the parent ids of a "bad" block stay inside the
"good" block. -/
theorem chain_stay (P0 : List String) (dgood dbad : List CorrelationResult)
    (hpar : ∀ r ∈ dbad, r.parentId ∈ P0)
    (hgood : ∀ r ∈ dgood, r.execution.id ∉ P0) :
    ∀ (chain : List CorrelationResult) (q : String), chainLinks q chain →
      (∀ r ∈ chain, r ∈ dgood ∨ r ∈ dbad) → q ∉ P0 →
      ∀ r ∈ chain, r ∈ dgood := by
  intro chain
  induction chain with
  | nil => intro q _ _ _ r hr; cases hr
  | cons r rest ih =>
    intro q hlinks hmem hq r' hr'
    obtain ⟨hpid, hrest⟩ := hlinks
    have hrgood : r ∈ dgood := by
      rcases hmem r (List.mem_cons_self r rest) with h | h
      · exact h
      · exact absurd (hpid ▸ hpar r h) hq
    rcases List.mem_cons.mp hr' with h | h
    · exact h ▸ hrgood
    · exact ih r.execution.id hrest (fun x hx => hmem x (List.mem_cons_of_mem r hx))
        (hgood r hrgood) r' h

theorem SearchInv.trans {ok : String → Prop} {p : String} {n : Nat} {st st₁ st₂ : SearchState}
    (hp : p ∈ st.visited)
    (h₁ : SearchInv ok p n st st₁) (h₂ : SearchInv ok p n st₁ st₂) :
    SearchInv ok p n st st₂ := by
  obtain ⟨d₁, hr₁, hv₁, hnd₁, hni₁, hc₁, hok₁, hpar₁, hch₁⟩ := h₁
  obtain ⟨d₂, hr₂, hv₂, hnd₂, hni₂, hc₂, hok₂, hpar₂, hch₂⟩ := h₂
  have hdisj : ∀ i ∈ resultIds d₁, i ∉ resultIds d₂ := by
    intro i hi₁ hi₂
    exact hni₂ i hi₂ (hv₁ ▸ List.mem_append_right _ hi₁)
  have hni₂' : ∀ i ∈ resultIds d₂, i ∉ st.visited := by
    intro i hi hmem
    exact hni₂ i hi (hv₁ ▸ List.mem_append_left _ hmem)
  refine ⟨d₁ ++ d₂, ?_, ?_, ?_, ?_, ?_, ?_, ?_, ?_⟩
  · rw [hr₂, hr₁, List.append_assoc]
  · rw [hv₂, hv₁, resultIds_append, List.append_assoc]
  · rw [resultIds_append]
    exact List.nodup_append.mpr ⟨hnd₁, hnd₂, hdisj⟩
  · intro i hi
    rw [resultIds_append] at hi
    rcases List.mem_append.mp hi with h | h
    · exact hni₁ i h
    · exact hni₂' i h
  · intro r hr
    rcases List.mem_append.mp hr with h | h
    · exact hc₁ r h
    · exact hc₂ r h
  · intro r hr
    rcases List.mem_append.mp hr with h | h
    · exact hok₁ r h
    · exact hok₂ r h
  · intro r hr
    rw [resultIds_append]
    rcases List.mem_append.mp hr with h | h
    · rcases hpar₁ r h with h' | h'
      · exact Or.inl h'
      · exact Or.inr (List.mem_append_left _ h')
    · rcases hpar₂ r h with h' | h'
      · exact Or.inl h'
      · exact Or.inr (List.mem_append_right _ h')
  · intro chain hlinks hmem
    cases chain with
    | nil => simp
    | cons r rest =>
      obtain ⟨hpid, hrest⟩ := hlinks
      have hgood₁ : ∀ x ∈ d₁, x.execution.id ∉ (p :: resultIds d₂) := by
        intro x hx hmem'
        rcases List.mem_cons.mp hmem' with h | h
        · exact hni₁ _ (List.mem_map_of_mem _ hx) (h ▸ hp)
        · exact hdisj _ (List.mem_map_of_mem _ hx) h
      have hgood₂ : ∀ x ∈ d₂, x.execution.id ∉ (p :: resultIds d₁) := by
        intro x hx hmem'
        rcases List.mem_cons.mp hmem' with h | h
        · exact hni₂' _ (List.mem_map_of_mem _ hx) (h ▸ hp)
        · exact hdisj _ h (List.mem_map_of_mem _ hx)
      have hsplit : ∀ x ∈ (r :: rest), x ∈ d₁ ∨ x ∈ d₂ := by
        intro x hx
        exact List.mem_append.mp (hmem x hx)
      rcases hsplit r (List.mem_cons_self r rest) with hr | hr
      · have hpar₂' : ∀ x ∈ d₂, x.parentId ∈ (p :: resultIds d₂) := by
          intro x hx
          rcases hpar₂ x hx with h | h
          · exact h ▸ List.mem_cons_self _ _
          · exact List.mem_cons_of_mem _ h
        have hstay := chain_stay (p :: resultIds d₂) d₁ d₂ hpar₂' hgood₁ rest
          r.execution.id hrest
          (fun x hx => hsplit x (List.mem_cons_of_mem r hx))
          (hgood₁ r hr)
        exact hch₁ (r :: rest) ⟨hpid, hrest⟩ (by
          intro x hx
          rcases List.mem_cons.mp hx with h | h
          · exact h ▸ hr
          · exact hstay x h)
      · have hpar₁' : ∀ x ∈ d₁, x.parentId ∈ (p :: resultIds d₁) := by
          intro x hx
          rcases hpar₁ x hx with h | h
          · exact h ▸ List.mem_cons_self _ _
          · exact List.mem_cons_of_mem _ h
        have hstay := chain_stay (p :: resultIds d₁) d₂ d₁ hpar₁' hgood₂ rest
          r.execution.id hrest
          (fun x hx => (hsplit x (List.mem_cons_of_mem r hx)).symm)
          (hgood₂ r hr)
        exact hch₂ (r :: rest) ⟨hpid, hrest⟩ (by
          intro x hx
          rcases List.mem_cons.mp hx with h | h
          · exact h ▸ hr
          · exact hstay x h)


/-- Accepting a candidate (push result, mark visited) and recursing into it
with the remaining budget `f` yields the invariant at budget `f + 1`. -/
theorem SearchInv.accept {ok : String → Prop} {p : String} {f : Nat}
    {st st₂ : SearchState} {candidate : N8nExecution} {conf : ℚ} {meth : String}
    (hnv : candidate.id ∉ st.visited)
    (hconf : (0.5 : ℚ) < conf) (hconf1 : conf ≤ 1) (hok : ok candidate.id)
    (hp : p ∈ st.visited)
    (hrec : SearchInv ok candidate.id f
      ⟨st.results ++ [⟨candidate, p, conf, meth⟩], st.visited ++ [candidate.id]⟩ st₂) :
    SearchInv ok p (f + 1) st st₂ := by
  obtain ⟨d, hr, hv, hnd, hni, hc, hok', hpar, hch⟩ := hrec
  simp only at hr hv hni
  have hfresh : ∀ i ∈ resultIds d, i ∉ st.visited ∧ i ≠ candidate.id := by
    intro i hi
    have := hni i hi
    constructor
    · exact fun hmem => this (List.mem_append_left _ hmem)
    · exact fun heq => this (List.mem_append_right _ (heq ▸ List.mem_singleton_self _))
  refine ⟨⟨candidate, p, conf, meth⟩ :: d, ?_, ?_, ?_, ?_, ?_, ?_, ?_, ?_⟩
  · rw [hr, List.append_assoc]
    rfl
  · rw [hv, List.append_assoc]
    rfl
  · refine List.nodup_cons.mpr ⟨?_, hnd⟩
    exact fun hmem => (hfresh _ hmem).2 rfl
  · intro i hi
    rcases List.mem_cons.mp hi with h | h
    · exact h ▸ hnv
    · exact (hfresh i h).1
  · intro r hr'
    rcases List.mem_cons.mp hr' with h | h
    · exact h ▸ ⟨hconf, hconf1⟩
    · exact hc r h
  · intro r hr'
    rcases List.mem_cons.mp hr' with h | h
    · exact h ▸ hok
    · exact hok' r h
  · intro r hr'
    rcases List.mem_cons.mp hr' with h | h
    · exact Or.inl (by rw [h])
    · rcases hpar r h with h' | h'
      · exact Or.inr (by rw [h']; exact List.mem_cons_self _ _)
      · exact Or.inr (List.mem_cons_of_mem _ h')
  · intro chain hlinks hmem
    cases chain with
    | nil => simp
    | cons r rest =>
      obtain ⟨hpid, hrest⟩ := hlinks
      have hne : candidate.id ≠ p := fun h => hnv (h ▸ hp)
      have hrrc : r = ⟨candidate, p, conf, meth⟩ := by
        rcases List.mem_cons.mp (hmem r (List.mem_cons_self r rest)) with h | h
        · exact h
        · exfalso
          rcases hpar r h with h' | h'
          · exact hne (h'.symm.trans hpid)
          · exact (hfresh _ (hpid ▸ h')).1 hp
      have hid : r.execution.id = candidate.id := by rw [hrrc]
      have hstay := chain_stay [p] d [⟨candidate, p, conf, meth⟩]
        (by intro x hx; rw [List.mem_singleton.mp hx]; exact List.mem_singleton_self _)
        (by intro x hx hmem'
            exact (hfresh _ (List.mem_map_of_mem _ hx)).1
              ((List.mem_singleton.mp hmem') ▸ hp))
        rest candidate.id (hid ▸ hrest)
        (by intro x hx
            rcases List.mem_cons.mp (hmem x (List.mem_cons_of_mem r hx)) with h | h
            · exact Or.inr (by rw [h]; exact List.mem_singleton_self _)
            · exact Or.inl h)
        (by intro hmem'; exact hne (List.mem_singleton.mp hmem'))
      have hlen : rest.length ≤ f := hch rest (hid ▸ hrest) hstay
      simpa using Nat.succ_le_succ hlen


theorem scoreCorrelation_confidence_le_one (parent candidate : N8nExecution)
    (ctx : UserContext) (call : HttpCall) :
    (scoreCorrelation parent candidate ctx call).confidence ≤ 1 := by
  rw [scoreCorrelation_eq_spec]
  unfold scoreCorrelationSpec
  exact min_le_right _ _

theorem ts2_stage (d : Int) (c : ℚ) (m : List String) :
    (if d < 2000 then (c + 0.3, m ++ ["timestamp"])
     else if d < 5000 then (c + 0.2, m ++ ["timestamp"])
     else (c, m)) =
      (c + (if d < 2000 then 0.3 else if d < 5000 then 0.2 else 0),
       m ++ (if d < 2000 then ["timestamp"] else if d < 5000 then ["timestamp"] else [])) := by
  split_ifs <;> simp

theorem subWorkflowScore_le_one (u c : UserContext) (cs es : Int) :
    (subWorkflowScore u c cs es).1 ≤ 1 := by
  unfold subWorkflowScore
  simp only [ts2_stage]
  simp only [stage_add]
  split_ifs <;> norm_num

theorem except_bind_ok {α β : Type} (a : α) (f : α → Except DSError β) :
    (Except.ok a >>= f) = f a := rfl

theorem except_bind_error {α β : Type} (e : DSError) (f : α → Except DSError β) :
    ((Except.error e : Except DSError α) >>= f) = Except.error e := rfl

theorem not_mem_of_contains_false {l : List String} {a : String}
    (h : l.contains a = false) : a ∉ l := by
  intro hmem
  have ht : l.contains a = true :=
    List.contains_iff_exists_mem_beq.mpr ⟨a, hmem, by simp⟩
  rw [h] at ht
  cases ht

theorem webhookCandidatesLoop_inv (ok : String → Prop) (f : Nat)
    (recurse : N8nExecution → SearchState → Except DSError SearchState)
    (hrec : ∀ c st st', c.id ∈ st.visited → recurse c st = .ok st' →
      SearchInv ok c.id f st st')
    (execution : N8nExecution) (parentId : String) (userContext : UserContext)
    (execStart timeWindowMs : Int) (call : HttpCall) :
    ∀ (cands : List N8nExecution) (st st' : SearchState),
      (∀ c ∈ cands, ok c.id) → parentId ∈ st.visited →
      webhookCandidatesLoop recurse execution parentId userContext execStart
        timeWindowMs call cands st = .ok st' →
      SearchInv ok parentId (f + 1) st st' := by
  intro cands
  induction cands with
  | nil =>
    intro st st' _ _ h
    simp only [webhookCandidatesLoop] at h
    cases h
    exact SearchInv.same ok parentId (f + 1) st
  | cons candidate rest ih =>
    intro st st' hcands hp h
    simp only [webhookCandidatesLoop] at h
    by_cases h1 : st.visited.contains candidate.id
    · rw [if_pos h1] at h
      exact ih st st' (fun c hc => hcands c (List.mem_cons_of_mem _ hc)) hp h
    · rw [if_neg h1] at h
      by_cases h2 : candidate.startedAt < execStart - 1000 ||
          candidate.startedAt > execStart + timeWindowMs
      · rw [if_pos h2] at h
        exact ih st st' (fun c hc => hcands c (List.mem_cons_of_mem _ hc)) hp h
      · rw [if_neg h2] at h
        by_cases h3 : (scoreCorrelation execution candidate userContext call).confidence > 0.5
        · rw [if_pos h3] at h
          cases hx : recurse candidate
            ⟨st.results ++ [⟨candidate, parentId,
                (scoreCorrelation execution candidate userContext call).confidence,
                (scoreCorrelation execution candidate userContext call).method⟩],
              st.visited ++ [candidate.id]⟩ with
          | error e =>
            rw [hx, except_bind_error] at h
            cases h
          | ok st₂ =>
            rw [hx, except_bind_ok] at h
            have hnv : candidate.id ∉ st.visited :=
              not_mem_of_contains_false (by simpa using h1)
            have inv₁ : SearchInv ok parentId (f + 1) st st₂ :=
              SearchInv.accept hnv h3
                (scoreCorrelation_confidence_le_one execution candidate userContext call)
                (hcands candidate (List.mem_cons_self _ _)) hp
                (hrec candidate _ st₂
                  (List.mem_append_right _ (List.mem_singleton_self _)) hx)
            have inv₂ : SearchInv ok parentId (f + 1) st₂ st' :=
              ih st₂ st' (fun c hc => hcands c (List.mem_cons_of_mem _ hc))
                (inv₁.visited_subset hp) h
            exact SearchInv.trans hp inv₁ inv₂
        · rw [if_neg h3] at h
          exact ih st st' (fun c hc => hcands c (List.mem_cons_of_mem _ hc)) hp h


theorem httpCallsLoop_inv (ok : String → Prop) (f : Nat)
    (recurse : N8nExecution → SearchState → Except DSError SearchState)
    (hrec : ∀ c st st', c.id ∈ st.visited → recurse c st = .ok st' →
      SearchInv ok c.id f st st')
    (corr : CorrState) (ds : DataSource)
    (hds : ∀ wid lim res, ds.listExecutions wid lim = .ok res → ∀ e ∈ res, ok e.id)
    (execution : N8nExecution) (parentId : String) (userContext : UserContext)
    (execStart timeWindowMs : Int) :
    ∀ (calls : List HttpCall) (st st' : SearchState),
      parentId ∈ st.visited →
      httpCallsLoop recurse corr ds execution parentId userContext execStart
        timeWindowMs calls st = .ok st' →
      SearchInv ok parentId (f + 1) st st' := by
  intro calls
  induction calls with
  | nil =>
    intro st st' _ h
    simp only [httpCallsLoop] at h
    cases h
    exact SearchInv.same ok parentId (f + 1) st
  | cons call rest ih =>
    intro st st' hp h
    simp only [httpCallsLoop] at h
    cases hm : findWorkflowByWebhook corr call.url with
    | none =>
      rw [hm] at h
      exact ih st st' hp h
    | some mapping =>
      rw [hm] at h
      dsimp only at h
      cases hle : ds.listExecutions mapping.workflowId 10 with
      | error e =>
        rw [hle, except_bind_error] at h
        cases h
      | ok candidates =>
        rw [hle, except_bind_ok] at h
        cases hcl : webhookCandidatesLoop recurse execution parentId userContext
            execStart timeWindowMs call candidates st with
        | error e =>
          rw [hcl, except_bind_error] at h
          cases h
        | ok st₁ =>
          rw [hcl, except_bind_ok] at h
          have inv₁ : SearchInv ok parentId (f + 1) st st₁ :=
            webhookCandidatesLoop_inv ok f recurse hrec execution parentId userContext
              execStart timeWindowMs call candidates st st₁
              (fun c hc => hds mapping.workflowId 10 candidates hle c hc) hp hcl
          have inv₂ : SearchInv ok parentId (f + 1) st₁ st' :=
            ih st₁ st' (inv₁.visited_subset hp) h
          exact SearchInv.trans hp inv₁ inv₂

theorem subWorkflowCandidatesLoop_inv (ok : String → Prop) (f : Nat)
    (recurse : N8nExecution → SearchState → Except DSError SearchState)
    (hrec : ∀ c st st', c.id ∈ st.visited → recurse c st = .ok st' →
      SearchInv ok c.id f st st')
    (parentId : String) (userContext : UserContext)
    (execStart timeWindowMs : Int) :
    ∀ (cands : List N8nExecution) (st st' : SearchState),
      (∀ c ∈ cands, ok c.id) → parentId ∈ st.visited →
      subWorkflowCandidatesLoop recurse parentId userContext execStart
        timeWindowMs cands st = .ok st' →
      SearchInv ok parentId (f + 1) st st' := by
  intro cands
  induction cands with
  | nil =>
    intro st st' _ _ h
    simp only [subWorkflowCandidatesLoop] at h
    cases h
    exact SearchInv.same ok parentId (f + 1) st
  | cons candidate rest ih =>
    intro st st' hcands hp h
    simp only [subWorkflowCandidatesLoop] at h
    by_cases h1 : st.visited.contains candidate.id
    · rw [if_pos h1] at h
      exact ih st st' (fun c hc => hcands c (List.mem_cons_of_mem _ hc)) hp h
    · rw [if_neg h1] at h
      by_cases h2 : candidate.startedAt < execStart ||
          candidate.startedAt > execStart + timeWindowMs
      · rw [if_pos h2] at h
        exact ih st st' (fun c hc => hcands c (List.mem_cons_of_mem _ hc)) hp h
      · rw [if_neg h2] at h
        by_cases h3 : (subWorkflowScore userContext (extractUserContext candidate)
            candidate.startedAt execStart).1 > 0.5
        · rw [if_pos h3] at h
          cases hx : recurse candidate
            ⟨st.results ++ [⟨candidate, parentId,
                (subWorkflowScore userContext (extractUserContext candidate)
                  candidate.startedAt execStart).1,
                String.intercalate "+"
                  (subWorkflowScore userContext (extractUserContext candidate)
                    candidate.startedAt execStart).2⟩],
              st.visited ++ [candidate.id]⟩ with
          | error e =>
            rw [hx, except_bind_error] at h
            cases h
          | ok st₂ =>
            rw [hx, except_bind_ok] at h
            have hnv : candidate.id ∉ st.visited :=
              not_mem_of_contains_false (by simpa using h1)
            have inv₁ : SearchInv ok parentId (f + 1) st st₂ :=
              SearchInv.accept hnv h3
                (subWorkflowScore_le_one userContext (extractUserContext candidate)
                  candidate.startedAt execStart)
                (hcands candidate (List.mem_cons_self _ _)) hp
                (hrec candidate _ st₂
                  (List.mem_append_right _ (List.mem_singleton_self _)) hx)
            have inv₂ : SearchInv ok parentId (f + 1) st₂ st' :=
              ih st₂ st' (fun c hc => hcands c (List.mem_cons_of_mem _ hc))
                (inv₁.visited_subset hp) h
            exact SearchInv.trans hp inv₁ inv₂
        · rw [if_neg h3] at h
          exact ih st st' (fun c hc => hcands c (List.mem_cons_of_mem _ hc)) hp h

theorem subWorkflowsLoop_inv (ok : String → Prop) (f : Nat)
    (recurse : N8nExecution → SearchState → Except DSError SearchState)
    (hrec : ∀ c st st', c.id ∈ st.visited → recurse c st = .ok st' →
      SearchInv ok c.id f st st')
    (ds : DataSource)
    (hds : ∀ wid lim res, ds.listExecutions wid lim = .ok res → ∀ e ∈ res, ok e.id)
    (ownWorkflowId parentId : String) (userContext : UserContext)
    (execStart timeWindowMs : Int) :
    ∀ (wids : List String) (st st' : SearchState),
      parentId ∈ st.visited →
      subWorkflowsLoop recurse ds ownWorkflowId parentId userContext execStart
        timeWindowMs wids st = .ok st' →
      SearchInv ok parentId (f + 1) st st' := by
  intro wids
  induction wids with
  | nil =>
    intro st st' _ h
    simp only [subWorkflowsLoop] at h
    cases h
    exact SearchInv.same ok parentId (f + 1) st
  | cons wid rest ih =>
    intro st st' hp h
    simp only [subWorkflowsLoop] at h
    by_cases h1 : (wid == ownWorkflowId) = true
    · rw [if_pos h1] at h
      exact ih st st' hp h
    · rw [if_neg h1] at h
      cases hle : ds.listExecutions wid 5 with
      | error e =>
        rw [hle, except_bind_error] at h
        cases h
      | ok candidates =>
        rw [hle, except_bind_ok] at h
        cases hcl : subWorkflowCandidatesLoop recurse parentId userContext execStart
            timeWindowMs candidates st with
        | error e =>
          rw [hcl, except_bind_error] at h
          cases h
        | ok st₁ =>
          rw [hcl, except_bind_ok] at h
          have inv₁ : SearchInv ok parentId (f + 1) st st₁ :=
            subWorkflowCandidatesLoop_inv ok f recurse hrec parentId userContext
              execStart timeWindowMs candidates st st₁
              (fun c hc => hds wid 5 candidates hle c hc) hp hcl
          have inv₂ : SearchInv ok parentId (f + 1) st₁ st' :=
            ih st₁ st' (inv₁.visited_subset hp) h
          exact SearchInv.trans hp inv₁ inv₂

theorem findCorrelatedExecutionsAux_inv (ok : String → Prop) (corr : CorrState)
    (ds : DataSource) (timeWindowMs : Int)
    (hds : ∀ wid lim res, ds.listExecutions wid lim = .ok res → ∀ e ∈ res, ok e.id) :
    ∀ (fuel : Nat) (execution : N8nExecution) (parentId : String) (st st' : SearchState),
      parentId ∈ st.visited →
      findCorrelatedExecutionsAux corr ds timeWindowMs fuel execution parentId st = .ok st' →
      SearchInv ok parentId fuel st st' := by
  intro fuel
  induction fuel with
  | zero =>
    intro e p st st' _ h
    simp only [findCorrelatedExecutionsAux] at h
    cases h
    exact SearchInv.same ok p 0 st
  | succ f ih =>
    intro e p st st' hp h
    simp only [findCorrelatedExecutionsAux] at h
    cases hcl : httpCallsLoop
        (fun c st => findCorrelatedExecutionsAux corr ds timeWindowMs f c c.id st)
        corr ds e p (extractUserContext e) e.startedAt timeWindowMs
        (extractHttpCalls e) st with
    | error err =>
      rw [hcl, except_bind_error] at h
      cases h
    | ok st₁ =>
      rw [hcl, except_bind_ok] at h
      have hrec : ∀ c st st', c.id ∈ st.visited →
          findCorrelatedExecutionsAux corr ds timeWindowMs f c c.id st = .ok st' →
          SearchInv ok c.id f st st' :=
        fun c st st' hc hx => ih c c.id st st' hc hx
      have inv₁ : SearchInv ok p (f + 1) st st₁ :=
        httpCallsLoop_inv ok f _ hrec corr ds hds e p (extractUserContext e)
          e.startedAt timeWindowMs (extractHttpCalls e) st st₁ hp hcl
      have inv₂ : SearchInv ok p (f + 1) st₁ st' :=
        subWorkflowsLoop_inv ok f _ hrec ds hds e.workflowId p (extractUserContext e)
          e.startedAt timeWindowMs
          ((corr.workflowCache.filter fun pr => hasSubWorkflowTrigger pr.2).map fun pr => pr.1)
          st₁ st' (inv₁.visited_subset hp) h
      exact SearchInv.trans hp inv₁ inv₂


theorem except_map_ok {α β : Type} (f : α → β) (a : α) :
    (Except.ok a : Except DSError α).map f = Except.ok (f a) := rfl

theorem except_map_error {α β : Type} (f : α → β) (e : DSError) :
    (Except.error e : Except DSError α).map f = Except.error e := rfl

/-- Master invariant for a successful `correlateExecutions` run: the search
state relation from the initial state (no results, root visited). -/
theorem correlateExecutionsFull_inv (ok : String → Prop) (ds : DataSource) (corr : CorrState)
    (rootExecutionId : String) (options : CorrOptions) (corr' : CorrState) (st' : SearchState)
    (hds : ∀ wid lim res, ds.listExecutions wid lim = .ok res → ∀ e ∈ res, ok e.id)
    (h : correlateExecutionsFull ds corr rootExecutionId options = .ok (corr', st')) :
    SearchInv ok rootExecutionId options.maxDepth ⟨[], [rootExecutionId]⟩ st' := by
  unfold correlateExecutionsFull at h
  cases hi : (if corr.webhookMappings.isEmpty then initCorrelator ds corr else Except.ok corr) with
  | error e =>
    rw [hi, except_bind_error] at h
    cases h
  | ok corr₁ =>
    rw [hi, except_bind_ok] at h
    cases hg : ds.getExecution rootExecutionId true with
    | error e =>
      rw [hg, except_bind_error] at h
      cases h
    | ok rootExec =>
      rw [hg, except_bind_ok] at h
      cases hf : findCorrelatedExecutions corr₁ ds options.timeWindowMs options.maxDepth 0
          rootExec rootExecutionId ⟨[], [rootExecutionId]⟩ with
      | error e =>
        rw [hf, except_bind_error] at h
        cases h
      | ok st₁ =>
        rw [hf, except_bind_ok] at h
        cases h
        unfold findCorrelatedExecutions at hf
        rw [Nat.sub_zero] at hf
        exact findCorrelatedExecutionsAux_inv ok _ ds options.timeWindowMs hds
          options.maxDepth rootExec rootExecutionId _ _ (List.mem_singleton_self _) hf

/-- C1: for every completed search, the final visited set is exactly the root
execution id followed by the ids of the returned results in order, with no
duplicates: each execution id appears in at most one Correlation Result and a
visited execution is never accepted again. -/
theorem c1_visited_set_exact (ds : DataSource) (corr : CorrState) (rootExecutionId : String)
    (options : CorrOptions) (corr' : CorrState) (st' : SearchState)
    (h : correlateExecutionsFull ds corr rootExecutionId options = .ok (corr', st')) :
    st'.visited = rootExecutionId :: resultIds st'.results ∧
    st'.visited.Nodup ∧ (resultIds st'.results).Nodup := by
  have inv := correlateExecutionsFull_inv (fun _ => True) ds corr rootExecutionId options
    corr' st' (fun _ _ _ _ _ _ => trivial) h
  obtain ⟨d, hr, hv, hnd, hni, _, _, _, _⟩ := inv
  simp only at hr hv hni
  have hd : st'.results = d := by rw [hr]; simp
  have hroot : rootExecutionId ∉ resultIds d := fun hmem =>
    hni _ hmem (List.mem_singleton_self _)
  refine ⟨?_, ?_, ?_⟩
  · rw [hv, hd]
    simp
  · rw [hv]
    simp only [List.singleton_append]
    exact List.nodup_cons.mpr ⟨hroot, hnd⟩
  · rw [hd]
    exact hnd

/-- C2: every Correlation Result returned by `correlateExecutions` has
confidence strictly above 0.5 and at most 1.0: the webhook path clamps with
min(sum, 1.0) before the threshold test and the sub-workflow path's unclamped
sum never exceeds 1 (0.3 + 0.4 + 0.3), and a candidate is recorded exactly
when that confidence exceeds 0.5. -/
theorem c2_confidence_bounds (ds : DataSource) (corr : CorrState) (rootExecutionId : String)
    (options : CorrOptions) (results : List CorrelationResult)
    (h : correlateExecutions ds corr rootExecutionId options = .ok results) :
    ∀ r ∈ results, (0.5 : ℚ) < r.confidence ∧ r.confidence ≤ 1 := by
  unfold correlateExecutions at h
  cases hf : correlateExecutionsFull ds corr rootExecutionId options with
  | error e =>
    rw [hf, except_map_error] at h
    cases h
  | ok pr =>
    rw [hf, except_map_ok] at h
    cases h
    have inv := correlateExecutionsFull_inv (fun _ => True) ds corr rootExecutionId options
      pr.1 pr.2 (fun _ _ _ _ _ _ => trivial) (by rw [hf])
    obtain ⟨d, hr, _, _, _, hc, _, _, _⟩ := inv
    simp only at hr
    intro r hrmem
    have : r ∈ d := by
      rw [hr] at hrmem
      simpa using hrmem
    exact hc r this

/-- C4: with a finite data source (every execution id any `listExecutions`
response can return lies in a finite universe `U`), the search terminates with
a result list bounded by the number of distinct ids in `U` — in particular the
result set is finite even when workflows mutually trigger one another, because
the shared visited set never admits an id twice. -/
theorem c4_bounded_results (ds : DataSource) (corr : CorrState) (rootExecutionId : String)
    (options : CorrOptions) (results : List CorrelationResult) (U : List String)
    (hU : ∀ wid lim res, ds.listExecutions wid lim = .ok res → ∀ e ∈ res, e.id ∈ U)
    (h : correlateExecutions ds corr rootExecutionId options = .ok results) :
    results.length ≤ U.dedup.length := by
  unfold correlateExecutions at h
  cases hf : correlateExecutionsFull ds corr rootExecutionId options with
  | error e =>
    rw [hf, except_map_error] at h
    cases h
  | ok pr =>
    rw [hf, except_map_ok] at h
    cases h
    have inv := correlateExecutionsFull_inv (fun i => i ∈ U) ds corr rootExecutionId options
      pr.1 pr.2 hU (by rw [hf])
    obtain ⟨d, hr, _, hnd, _, _, hok, _, _⟩ := inv
    simp only at hr
    have hd : pr.2.results = d := by rw [hr]; simp
    have hsub : resultIds d ⊆ U.dedup := by
      intro i hi
      rcases List.mem_map.mp hi with ⟨r, hrd, hri⟩
      exact List.mem_dedup.mpr (hri ▸ hok r hrd)
    have hlen : (resultIds d).length ≤ U.dedup.length :=
      (List.Nodup.subperm hnd hsub).length_le
    calc pr.2.results.length = (resultIds pr.2.results).length := by
          simp [resultIds]
      _ = (resultIds d).length := by rw [hd]
      _ ≤ U.dedup.length := hlen

/-- C5: no Correlation Result is produced at depth ≥ maxDepth — the search
returns its state unchanged as soon as `currentDepth ≥ maxDepth`; with
maxDepth = 0 the returned result list is empty; and every parent-child chain
of accepted correlations anchored at the root has length at most maxDepth. -/
theorem c5_depth_bound :
    (∀ (corr : CorrState) (ds : DataSource) (timeWindowMs : Int)
       (maxDepth currentDepth : Nat) (execution : N8nExecution) (parentId : String)
       (st : SearchState), maxDepth ≤ currentDepth →
       findCorrelatedExecutions corr ds timeWindowMs maxDepth currentDepth execution
         parentId st = .ok st) ∧
    (∀ (ds : DataSource) (corr : CorrState) (rootExecutionId : String) (timeWindowMs : Int)
       (results : List CorrelationResult),
       correlateExecutions ds corr rootExecutionId ⟨timeWindowMs, 0⟩ = .ok results →
       results = []) ∧
    (∀ (ds : DataSource) (corr : CorrState) (rootExecutionId : String)
       (options : CorrOptions) (corr' : CorrState) (st' : SearchState),
       correlateExecutionsFull ds corr rootExecutionId options = .ok (corr', st') →
       ∀ chain, chainLinks rootExecutionId chain → (∀ r ∈ chain, r ∈ st'.results) →
         chain.length ≤ options.maxDepth) := by
  refine ⟨?_, ?_, ?_⟩
  · intro corr ds timeWindowMs maxDepth currentDepth execution parentId st hle
    unfold findCorrelatedExecutions
    rw [Nat.sub_eq_zero_of_le hle]
    simp [findCorrelatedExecutionsAux]
  · intro ds corr rootExecutionId timeWindowMs results h
    unfold correlateExecutions correlateExecutionsFull at h
    cases hi : (if corr.webhookMappings.isEmpty then initCorrelator ds corr else Except.ok corr) with
    | error e =>
      rw [hi, except_bind_error, except_map_error] at h
      cases h
    | ok corr₁ =>
      rw [hi, except_bind_ok] at h
      cases hg : ds.getExecution rootExecutionId true with
      | error e =>
        rw [hg, except_bind_error, except_map_error] at h
        cases h
      | ok rootExec =>
        rw [hg, except_bind_ok] at h
        have hfind : findCorrelatedExecutions corr₁ ds timeWindowMs 0 0 rootExec
            rootExecutionId ⟨[], [rootExecutionId]⟩ = .ok ⟨[], [rootExecutionId]⟩ := by
          unfold findCorrelatedExecutions
          simp [findCorrelatedExecutionsAux]
        rw [hfind, except_bind_ok, except_map_ok] at h
        cases h
        rfl
  · intro ds corr rootExecutionId options corr' st' h chain hlinks hmem
    have inv := correlateExecutionsFull_inv (fun _ => True) ds corr rootExecutionId options
      corr' st' (fun _ _ _ _ _ _ => trivial) h
    obtain ⟨d, hr, _, _, _, _, _, _, hch⟩ := inv
    simp only at hr
    have hd : st'.results = d := by rw [hr]; simp
    exact hch chain hlinks (fun r hrc => hd ▸ hmem r hrc)


/-! ### A concrete end-to-end search run, used by witnesses -/

def demoWorkflow : N8nWorkflow :=
  { id := "W2", name := "Agent", active := true,
    nodes := some [⟨"Webhook", "n8n-nodes-base.webhook", some "agent"⟩] }

def demoDs : DataSource :=
  { listWorkflowsActive := .ok [demoWorkflow]
    getWorkflow := fun _ => .ok demoWorkflow
    listExecutions := fun _ _ => .ok [c3candidate]
    getExecution := fun _ _ => .ok c3parent }

def demoResult : CorrelationResult :=
  ⟨c3candidate, "E1", 0.9, "webhook_url+timestamp_exact+user_id"⟩

def demoCorr : CorrState :=
  ⟨[⟨"/agent", "W2", "Agent"⟩], [("W2", demoWorkflow)]⟩

/-- In the demo source, expanding the accepted candidate finds nothing: it has
no outgoing HTTP calls and no cached workflow carries a sub-workflow trigger. -/
theorem demo_sub_run (f : Nat) (pid : String) (st : SearchState) :
    findCorrelatedExecutionsAux demoCorr demoDs 30000 f c3candidate pid st = .ok st := by
  cases f with
  | zero => rfl
  | succ f =>
    simp only [findCorrelatedExecutionsAux]
    rw [show extractHttpCalls c3candidate = [] from rfl]
    rw [show ((demoCorr.workflowCache.filter fun pr => hasSubWorkflowTrigger pr.2).map
      fun pr => pr.1) = ([] : List String) from rfl]
    simp only [httpCallsLoop, subWorkflowsLoop, except_bind_ok]

theorem demo_cand_loop (f : Nat) :
    webhookCandidatesLoop
      (fun c st => findCorrelatedExecutionsAux demoCorr demoDs 30000 f c c.id st)
      c3parent "E1" { userId := some "u1" } c3parent.startedAt 30000 c3call
      [c3candidate] ⟨[], ["E1"]⟩ =
      .ok ⟨[demoResult], ["E1", "E2"]⟩ := by
  simp only [webhookCandidatesLoop]
  rw [if_neg (show ¬ ((SearchState.mk [] ["E1"]).visited.contains c3candidate.id = true)
    by decide)]
  rw [if_neg (show ¬ ((decide (c3candidate.startedAt < c3parent.startedAt - 1000) ||
    decide (c3candidate.startedAt > c3parent.startedAt + 30000)) = true) by decide)]
  have hctx : extractUserContext c3parent = { userId := some "u1" } := by decide
  rw [← hctx, c3_concrete_scenario]
  rw [if_pos (show (Score.mk 0.9 "webhook_url+timestamp_exact+user_id").confidence > 0.5
    by norm_num [Score.confidence])]
  dsimp only
  rw [demo_sub_run, except_bind_ok]
  rfl

theorem demo_search (f : Nat) :
    findCorrelatedExecutionsAux demoCorr demoDs 30000 (f + 1) c3parent "E1" ⟨[], ["E1"]⟩ =
      .ok ⟨[demoResult], ["E1", "E2"]⟩ := by
  simp only [findCorrelatedExecutionsAux]
  rw [show extractHttpCalls c3parent = [c3call] from rfl]
  rw [show extractUserContext c3parent = { userId := some "u1" } from by decide]
  simp only [httpCallsLoop]
  rw [show findWorkflowByWebhook demoCorr c3call.url = some ⟨"/agent", "W2", "Agent"⟩
    from by decide]
  dsimp only
  rw [show demoDs.listExecutions "W2" 10 = .ok [c3candidate] from rfl, except_bind_ok]
  rw [demo_cand_loop, except_bind_ok]
  simp only [httpCallsLoop, except_bind_ok]
  rw [show ((demoCorr.workflowCache.filter fun pr => hasSubWorkflowTrigger pr.2).map
    fun pr => pr.1) = ([] : List String) from rfl]
  simp only [subWorkflowsLoop]

theorem demo_run :
    correlateExecutionsFull demoDs demoCorr "E1" {} =
      .ok (demoCorr, ⟨[demoResult], ["E1", "E2"]⟩) := by
  unfold correlateExecutionsFull
  rw [if_neg (show ¬ (demoCorr.webhookMappings.isEmpty = true) by decide)]
  rw [except_bind_ok]
  rw [show demoDs.getExecution "E1" true = .ok c3parent from rfl, except_bind_ok]
  show findCorrelatedExecutionsAux demoCorr demoDs 30000 (4 + 1) c3parent "E1"
      ⟨[], ["E1"]⟩ >>= (fun st => Except.ok (demoCorr, st)) =
    Except.ok (demoCorr, ⟨[demoResult], ["E1", "E2"]⟩)
  rw [demo_search, except_bind_ok]


/-! ### A cyclic sub-workflow scenario: two workflows mutually triggering -/

def cycCtxJson : JsonPayload := { user_id := some "u2" }

def cycExecA : N8nExecution :=
  { id := "EA", workflowId := "WA", startedAt := 0,
    runData := some [("T", [⟨0, some [[⟨cycCtxJson⟩]]⟩])] }

def cycExecB : N8nExecution :=
  { id := "EB", workflowId := "WB", startedAt := 100,
    runData := some [("T", [⟨100, some [[⟨cycCtxJson⟩]]⟩])] }

def cycWfA : N8nWorkflow :=
  { id := "WA", name := "A",
    nodes := some [⟨"Trigger", "n8n-nodes-base.executeWorkflowTrigger", none⟩] }

def cycWfB : N8nWorkflow :=
  { id := "WB", name := "B",
    nodes := some [⟨"Trigger", "n8n-nodes-base.executeWorkflowTrigger", none⟩] }

/-- Each workflow's recent executions list the other workflow's execution, so
the two executions mutually qualify as candidates within the time window. -/
def cycDs : DataSource :=
  { listWorkflowsActive := .ok [cycWfA, cycWfB]
    getWorkflow := fun id => if id == "WA" then .ok cycWfA else .ok cycWfB
    listExecutions := fun wid _ => if wid == "WA" then .ok [cycExecA] else .ok [cycExecB]
    getExecution := fun _ _ => .ok cycExecA }

def cycCorr : CorrState :=
  ⟨[⟨"/x", "W0", "X"⟩], [("WA", cycWfA), ("WB", cycWfB)]⟩

def cycResult : CorrelationResult := ⟨cycExecB, "EA", 0.7, "timestamp+user_id"⟩

theorem cyc_score :
    subWorkflowScore { userId := some "u2" } (extractUserContext cycExecB)
      cycExecB.startedAt cycExecA.startedAt = (0.7, ["timestamp", "user_id"]) := by
  rw [show extractUserContext cycExecB = { userId := some "u2" } from by decide]
  simp only [subWorkflowScore]
  rw [if_pos (show |cycExecB.startedAt - cycExecA.startedAt| < 2000 by decide)]
  rw [if_pos (show (jsTruthy (UserContext.userId { userId := some "u2" }) &&
    (UserContext.userId { userId := some "u2" } == UserContext.userId { userId := some "u2" }))
      = true by decide)]
  rw [if_neg (show ¬ ((jsTruthy (UserContext.chatId { userId := some "u2" }) &&
    (UserContext.chatId { userId := some "u2" } == UserContext.chatId { userId := some "u2" }))
      = true) by decide)]
  norm_num

/-- Expanding the accepted execution `EB` finds nothing new: its only
candidate, `EA`, is already in the visited set — the cycle is cut. -/
theorem cyc_sub_run (f : Nat) (pid : String) (st : SearchState)
    (hvis : st.visited.contains "EA" = true) :
    findCorrelatedExecutionsAux cycCorr cycDs 30000 f cycExecB pid st = .ok st := by
  cases f with
  | zero => rfl
  | succ f =>
    simp only [findCorrelatedExecutionsAux]
    rw [show extractHttpCalls cycExecB = [] from rfl]
    simp only [httpCallsLoop, except_bind_ok]
    rw [show ((cycCorr.workflowCache.filter fun pr => hasSubWorkflowTrigger pr.2).map
      fun pr => pr.1) = ["WA", "WB"] from rfl]
    simp only [subWorkflowsLoop]
    rw [if_neg (show ¬ (("WA" == cycExecB.workflowId) = true) by decide)]
    rw [show cycDs.listExecutions "WA" 5 = .ok [cycExecA] from rfl, except_bind_ok]
    simp only [subWorkflowCandidatesLoop]
    rw [if_pos (show st.visited.contains cycExecA.id = true from hvis)]
    simp only [subWorkflowCandidatesLoop, except_bind_ok]
    rw [if_pos (show (("WB" == cycExecB.workflowId) = true) by decide)]

theorem cyc_cand_loop (f : Nat) :
    subWorkflowCandidatesLoop
      (fun c st => findCorrelatedExecutionsAux cycCorr cycDs 30000 f c c.id st)
      "EA" { userId := some "u2" } cycExecA.startedAt 30000 [cycExecB] ⟨[], ["EA"]⟩ =
      .ok ⟨[cycResult], ["EA", "EB"]⟩ := by
  simp only [subWorkflowCandidatesLoop]
  rw [if_neg (show ¬ ((SearchState.mk [] ["EA"]).visited.contains cycExecB.id = true)
    by decide)]
  rw [if_neg (show ¬ ((decide (cycExecB.startedAt < cycExecA.startedAt) ||
    decide (cycExecB.startedAt > cycExecA.startedAt + 30000)) = true) by decide)]
  rw [cyc_score]
  rw [if_pos (show ((0.7 : ℚ), ["timestamp", "user_id"]).1 > 0.5 by norm_num)]
  dsimp only
  rw [cyc_sub_run f cycExecB.id _ (by decide), except_bind_ok]
  rfl

theorem cyc_search (f : Nat) :
    findCorrelatedExecutionsAux cycCorr cycDs 30000 (f + 1) cycExecA "EA" ⟨[], ["EA"]⟩ =
      .ok ⟨[cycResult], ["EA", "EB"]⟩ := by
  simp only [findCorrelatedExecutionsAux]
  rw [show extractHttpCalls cycExecA = [] from rfl]
  rw [show extractUserContext cycExecA = { userId := some "u2" } from by decide]
  simp only [httpCallsLoop, except_bind_ok]
  rw [show ((cycCorr.workflowCache.filter fun pr => hasSubWorkflowTrigger pr.2).map
    fun pr => pr.1) = ["WA", "WB"] from rfl]
  simp only [subWorkflowsLoop]
  rw [if_pos (show (("WA" == cycExecA.workflowId) = true) by decide)]
  rw [if_neg (show ¬ (("WB" == cycExecA.workflowId) = true) by decide)]
  rw [show cycDs.listExecutions "WB" 5 = .ok [cycExecB] from rfl, except_bind_ok]
  rw [cyc_cand_loop, except_bind_ok]

/-- The full cyclic search terminates with exactly one result: `EB` correlated
to `EA`; the mutual candidacy does not recurse forever. -/
theorem cyc_run :
    correlateExecutionsFull cycDs cycCorr "EA" {} =
      .ok (cycCorr, ⟨[cycResult], ["EA", "EB"]⟩) := by
  unfold correlateExecutionsFull
  rw [if_neg (show ¬ (cycCorr.webhookMappings.isEmpty = true) by decide)]
  rw [except_bind_ok]
  rw [show cycDs.getExecution "EA" true = .ok cycExecA from rfl, except_bind_ok]
  show findCorrelatedExecutionsAux cycCorr cycDs 30000 (4 + 1) cycExecA "EA"
      ⟨[], ["EA"]⟩ >>= (fun st => Except.ok (cycCorr, st)) =
    Except.ok (cycCorr, ⟨[cycResult], ["EA", "EB"]⟩)
  rw [cyc_search, except_bind_ok]

/-! ### Witnesses for the search invariants -/

theorem c1_visited_set_exact_witness :
    (⟨[demoResult], ["E1", "E2"]⟩ : SearchState).visited =
      "E1" :: resultIds (⟨[demoResult], ["E1", "E2"]⟩ : SearchState).results ∧
    (⟨[demoResult], ["E1", "E2"]⟩ : SearchState).visited.Nodup ∧
    (resultIds (⟨[demoResult], ["E1", "E2"]⟩ : SearchState).results).Nodup :=
  c1_visited_set_exact demoDs demoCorr "E1" {} demoCorr ⟨[demoResult], ["E1", "E2"]⟩ demo_run

theorem c2_confidence_bounds_witness :
    (0.5 : ℚ) < demoResult.confidence ∧ demoResult.confidence ≤ 1 :=
  c2_confidence_bounds demoDs demoCorr "E1" {} [demoResult]
    (by unfold correlateExecutions; rw [demo_run]; rfl)
    demoResult (List.mem_singleton_self _)

theorem c4_bounded_results_witness :
    ([cycResult] : List CorrelationResult).length ≤ (["EA", "EB"] : List String).dedup.length := by
  refine c4_bounded_results cycDs cycCorr "EA" {} [cycResult] ["EA", "EB"] ?_ ?_
  · intro wid lim res h e he
    simp only [cycDs] at h
    split at h
    · cases h
      simp only [List.mem_singleton] at he
      rw [he]
      decide
    · cases h
      simp only [List.mem_singleton] at he
      rw [he]
      decide
  · unfold correlateExecutions
    rw [cyc_run]
    rfl

theorem c5_depth_bound_witness :
    findCorrelatedExecutions demoCorr demoDs 30000 0 0 c3parent "E1" ⟨[], ["E1"]⟩ =
      .ok ⟨[], ["E1"]⟩ ∧
    ([] : List CorrelationResult) = [] ∧
    ([cycResult] : List CorrelationResult).length ≤ ({} : CorrOptions).maxDepth :=
  ⟨c5_depth_bound.1 demoCorr demoDs 30000 0 0 c3parent "E1" ⟨[], ["E1"]⟩ (Nat.le_refl 0),
   c5_depth_bound.2.1 demoDs demoCorr "E1" 30000 []
     (by unfold correlateExecutions
         rw [show correlateExecutionsFull demoDs demoCorr "E1" ⟨30000, 0⟩ =
           .ok (demoCorr, ⟨[], ["E1"]⟩) from rfl]
         rfl),
   c5_depth_bound.2.2 cycDs cycCorr "EA" {} cycCorr ⟨[cycResult], ["EA", "EB"]⟩ cyc_run
     [cycResult] ⟨rfl, trivial⟩ (by simp)⟩


/-! ### C8: data-source failures propagate; resolution misses are silent -/

theorem isEmpty_false_of_ne_nil {l : List WebhookMapping} (h : l ≠ []) :
    l.isEmpty = false := by
  cases l with
  | nil => exact absurd rfl h
  | cons a t => rfl

theorem httpCallsLoop_all_none
    (recurse : N8nExecution → SearchState → Except DSError SearchState)
    (corr : CorrState) (ds : DataSource) (execution : N8nExecution) (parentId : String)
    (userContext : UserContext) (execStart timeWindowMs : Int) :
    ∀ (calls : List HttpCall) (st : SearchState),
      (∀ call ∈ calls, findWorkflowByWebhook corr call.url = none) →
      httpCallsLoop recurse corr ds execution parentId userContext execStart
        timeWindowMs calls st = .ok st := by
  intro calls
  induction calls with
  | nil => intro st _; rfl
  | cons call rest ih =>
    intro st hnone
    simp only [httpCallsLoop]
    rw [hnone call (List.mem_cons_self _ _)]
    exact ih st fun c hc => hnone c (List.mem_cons_of_mem _ hc)

/-- A `getWorkflow` failure anywhere in the `initialize()` loop aborts the
loop with that error (the preceding workflows having fetched successfully). -/
theorem initLoop_getWorkflow_error (ds : DataSource) (e : DSError) (wf : N8nWorkflow)
    (hg : ds.getWorkflow wf.id = .error e) :
    ∀ (ws₁ ws₂ : List N8nWorkflow) (corr : CorrState),
      (∀ w ∈ ws₁, ∃ fw, ds.getWorkflow w.id = .ok fw) →
      initLoop ds (ws₁ ++ wf :: ws₂) corr = .error e := by
  intro ws₁
  induction ws₁ with
  | nil =>
    intro ws₂ corr _
    simp only [List.nil_append, initLoop]
    rw [hg, except_bind_error]
  | cons w rest ih =>
    intro ws₂ corr hok
    obtain ⟨fw, hfw⟩ := hok w (List.mem_cons_self _ _)
    simp only [List.cons_append, initLoop]
    rw [hfw, except_bind_ok]
    exact ih ws₂ _ fun w' hw' => hok w' (List.mem_cons_of_mem _ hw')

/-- C8: a data-source failure during a search propagates to the caller
unchanged — nothing is caught, no partial result list is returned — while a
webhook-resolution miss (and an absent sub-workflow trigger set) merely skips
the signal and yields a successful empty result.  The five conjuncts cover: a
workflow-listing failure during lazy initialization; a root-fetch failure; an
execution-listing failure during the webhook pass; the silent-miss success
case; and a workflow-definition fetch (`getWorkflow`) failure during lazy
initialization. -/
theorem c8_error_propagation :
    (∀ (ds : DataSource) (corr : CorrState) (root : String) (options : CorrOptions)
       (e : DSError), corr.webhookMappings = [] → ds.listWorkflowsActive = .error e →
       correlateExecutionsFull ds corr root options = .error e) ∧
    (∀ (ds : DataSource) (corr : CorrState) (root : String) (options : CorrOptions)
       (e : DSError), corr.webhookMappings ≠ [] → ds.getExecution root true = .error e →
       correlateExecutionsFull ds corr root options = .error e) ∧
    (∀ (ds : DataSource) (corr : CorrState) (root : String) (options : CorrOptions)
       (e : DSError) (rootExec : N8nExecution) (call : HttpCall) (m : WebhookMapping),
       corr.webhookMappings ≠ [] → ds.getExecution root true = .ok rootExec →
       extractHttpCalls rootExec = [call] → findWorkflowByWebhook corr call.url = some m →
       ds.listExecutions m.workflowId 10 = .error e → 0 < options.maxDepth →
       correlateExecutionsFull ds corr root options = .error e) ∧
    (∀ (ds : DataSource) (corr : CorrState) (root : String) (options : CorrOptions)
       (rootExec : N8nExecution), corr.webhookMappings ≠ [] →
       ds.getExecution root true = .ok rootExec →
       (∀ call ∈ extractHttpCalls rootExec, findWorkflowByWebhook corr call.url = none) →
       ((corr.workflowCache.filter fun pr => hasSubWorkflowTrigger pr.2).map
         fun pr => pr.1) = [] →
       correlateExecutionsFull ds corr root options = .ok (corr, ⟨[], [root]⟩)) ∧
    (∀ (ds : DataSource) (corr : CorrState) (root : String) (options : CorrOptions)
       (e : DSError) (ws₁ : List N8nWorkflow) (wf : N8nWorkflow) (ws₂ : List N8nWorkflow),
       corr.webhookMappings = [] → ds.listWorkflowsActive = .ok (ws₁ ++ wf :: ws₂) →
       (∀ w ∈ ws₁, ∃ fw, ds.getWorkflow w.id = .ok fw) →
       ds.getWorkflow wf.id = .error e →
       correlateExecutionsFull ds corr root options = .error e) := by
  refine ⟨?_, ?_, ?_, ?_, ?_⟩
  · intro ds corr root options e hmaps hlw
    unfold correlateExecutionsFull
    rw [if_pos (show corr.webhookMappings.isEmpty = true by rw [hmaps]; rfl)]
    unfold initCorrelator
    rw [hlw, except_bind_error, except_bind_error]
  · intro ds corr root options e hmaps hget
    unfold correlateExecutionsFull
    rw [if_neg (show ¬ (corr.webhookMappings.isEmpty = true) by
      rw [isEmpty_false_of_ne_nil hmaps]; simp)]
    rw [except_bind_ok, hget, except_bind_error]
  · intro ds corr root options e rootExec call m hmaps hget hcalls hfind hle hdepth
    unfold correlateExecutionsFull
    rw [if_neg (show ¬ (corr.webhookMappings.isEmpty = true) by
      rw [isEmpty_false_of_ne_nil hmaps]; simp)]
    rw [except_bind_ok, hget, except_bind_ok]
    unfold findCorrelatedExecutions
    rw [Nat.sub_zero]
    obtain ⟨d, hd⟩ := Nat.exists_eq_add_of_lt hdepth
    rw [show options.maxDepth = d + 1 by omega]
    simp only [findCorrelatedExecutionsAux]
    rw [hcalls]
    simp only [httpCallsLoop]
    rw [hfind]
    dsimp only
    rw [hle, except_bind_error, except_bind_error, except_bind_error]
  · intro ds corr root options rootExec hmaps hget hnone hsub
    unfold correlateExecutionsFull
    rw [if_neg (show ¬ (corr.webhookMappings.isEmpty = true) by
      rw [isEmpty_false_of_ne_nil hmaps]; simp)]
    rw [except_bind_ok, hget, except_bind_ok]
    unfold findCorrelatedExecutions
    rw [Nat.sub_zero]
    cases hdep : options.maxDepth with
    | zero => rfl
    | succ d =>
      simp only [findCorrelatedExecutionsAux]
      rw [httpCallsLoop_all_none _ corr ds rootExec root _ rootExec.startedAt
        options.timeWindowMs (extractHttpCalls rootExec) ⟨[], [root]⟩ hnone]
      rw [except_bind_ok, hsub]
      rfl
  · intro ds corr root options e ws₁ wf ws₂ hmaps hlw hok hg
    unfold correlateExecutionsFull
    rw [if_pos (show corr.webhookMappings.isEmpty = true by rw [hmaps]; rfl)]
    unfold initCorrelator
    rw [hlw, except_bind_ok]
    rw [initLoop_getWorkflow_error ds e wf hg ws₁ ws₂ corr hok]
    rw [except_bind_error]


def errDs1 : DataSource :=
  { listWorkflowsActive := .error "listWorkflows failed"
    getWorkflow := fun _ => .ok demoWorkflow
    listExecutions := fun _ _ => .ok []
    getExecution := fun _ _ => .ok c3parent }

def errDs2 : DataSource :=
  { listWorkflowsActive := .ok []
    getWorkflow := fun _ => .ok demoWorkflow
    listExecutions := fun _ _ => .ok []
    getExecution := fun _ _ => .error "getExecution failed" }

def errDs3 : DataSource :=
  { listWorkflowsActive := .ok []
    getWorkflow := fun _ => .ok demoWorkflow
    listExecutions := fun _ _ => .error "listExecutions failed"
    getExecution := fun _ _ => .ok c3parent }

def missCorr : CorrState := ⟨[⟨"/zzz", "W9", "Z"⟩], []⟩

def errDs4 : DataSource :=
  { listWorkflowsActive := .ok [demoWorkflow]
    getWorkflow := fun _ => .error "getWorkflow failed"
    listExecutions := fun _ _ => .ok []
    getExecution := fun _ _ => .ok c3parent }

theorem c8_error_propagation_witness :
    correlateExecutionsFull errDs1 ⟨[], []⟩ "E1" {} = .error "listWorkflows failed" ∧
    correlateExecutionsFull errDs2 demoCorr "E1" {} = .error "getExecution failed" ∧
    correlateExecutionsFull errDs3 demoCorr "E1" {} = .error "listExecutions failed" ∧
    correlateExecutionsFull errDs3 missCorr "E1" {} = .ok (missCorr, ⟨[], ["E1"]⟩) ∧
    correlateExecutionsFull errDs4 ⟨[], []⟩ "E1" {} = .error "getWorkflow failed" :=
  ⟨c8_error_propagation.1 errDs1 ⟨[], []⟩ "E1" {} _ rfl rfl,
   c8_error_propagation.2.1 errDs2 demoCorr "E1" {} _ (by decide) rfl,
   c8_error_propagation.2.2.1 errDs3 demoCorr "E1" {} _ c3parent c3call
     ⟨"/agent", "W2", "Agent"⟩ (by decide) rfl rfl (by decide) rfl (by decide),
   c8_error_propagation.2.2.2.1 errDs3 missCorr "E1" {} c3parent (by decide) rfl
     (by intro call hc
         rw [show extractHttpCalls c3parent = [c3call] from rfl] at hc
         rw [List.mem_singleton.mp hc]
         decide)
     rfl,
   c8_error_propagation.2.2.2.2 errDs4 ⟨[], []⟩ "E1" {} _ [] demoWorkflow [] rfl rfl
     (fun w hw => absurd hw (List.not_mem_nil w)) rfl⟩


/-! ### C10: initialize() appends mappings but overwrites the cache by id -/

/-- The webhook mappings one `initialize()` pass appends, determined by the
data source and the listed workflows alone (the error branch is unreachable on
a successful pass). -/
def initDelta (ds : DataSource) : List N8nWorkflow → List WebhookMapping
  | [] => []
  | wf :: rest =>
    match ds.getWorkflow wf.id with
    | .ok fullWorkflow =>
      ((extractWebhookPaths fullWorkflow).map fun path => (⟨path, wf.id, wf.name⟩ : WebhookMapping)) ++
        initDelta ds rest
    | .error _ => []

theorem initLoop_mappings (ds : DataSource) :
    ∀ (ws : List N8nWorkflow) (corr corr' : CorrState),
      initLoop ds ws corr = .ok corr' →
      corr'.webhookMappings = corr.webhookMappings ++ initDelta ds ws := by
  intro ws
  induction ws with
  | nil =>
    intro corr corr' h
    cases h
    simp [initDelta]
  | cons wf rest ih =>
    intro corr corr' h
    simp only [initLoop] at h
    cases hg : ds.getWorkflow wf.id with
    | error e =>
      rw [hg, except_bind_error] at h
      cases h
    | ok fullWorkflow =>
      rw [hg, except_bind_ok] at h
      have := ih _ _ h
      simp only at this
      rw [this]
      simp only [initDelta, hg]
      rw [List.append_assoc]

theorem mapSet_lookup_self (k : String) (v : N8nWorkflow) :
    ∀ m : List (String × N8nWorkflow), List.lookup k (mapSet m k v) = some v := by
  intro m
  induction m with
  | nil => simp [mapSet, List.lookup]
  | cons p rest ih =>
    simp only [mapSet]
    by_cases hk : (p.1 == k) = true
    · rw [if_pos hk]
      simp [List.lookup]
    · rw [if_neg hk]
      have hkk : (k == p.1) = false := by
        cases hb : k == p.1 with
        | false => rfl
        | true =>
          have heq : k = p.1 := by rwa [beq_iff_eq] at hb
          exact absurd (by rw [beq_iff_eq]; exact heq.symm) hk
      simp only [List.lookup, hkk]
      exact ih

theorem mapSet_lookup_ne (k k' : String) (v : N8nWorkflow) (hne : (k' == k) = false) :
    ∀ m : List (String × N8nWorkflow), List.lookup k' (mapSet m k v) = List.lookup k' m := by
  intro m
  induction m with
  | nil => simp [mapSet, List.lookup, hne]
  | cons p rest ih =>
    simp only [mapSet]
    by_cases hk : (p.1 == k) = true
    · rw [if_pos hk]
      have hpk : p.1 = k := by rwa [beq_iff_eq] at hk
      simp only [List.lookup, hne, hpk]
    · rw [if_neg hk]
      simp only [List.lookup]
      rw [ih]

theorem mapSet_of_lookup_eq (k : String) (v : N8nWorkflow) :
    ∀ m : List (String × N8nWorkflow), List.lookup k m = some v → mapSet m k v = m := by
  intro m
  induction m with
  | nil => intro h; cases h
  | cons p rest ih =>
    intro h
    simp only [List.lookup] at h
    by_cases hk : (k == p.1) = true
    · rw [hk] at h
      simp only [mapSet]
      rw [if_pos (by rw [beq_iff_eq] at hk ⊢; exact hk.symm)]
      cases h
      have hpk : p.1 = k := by rw [beq_iff_eq] at hk; exact hk.symm
      rw [← hpk]
    · rw [Bool.of_not_eq_true hk] at h
      simp only [mapSet]
      rw [if_neg (by
        intro hc
        rw [beq_iff_eq] at hc
        exact hk (by rw [beq_iff_eq]; exact hc.symm))]
      rw [ih h]

theorem initLoop_cache_lookup (ds : DataSource) :
    ∀ (ws : List N8nWorkflow) (corr corr' : CorrState),
      initLoop ds ws corr = .ok corr' →
      ∀ (k : String) (fw : N8nWorkflow), ds.getWorkflow k = .ok fw →
      ((∃ wf ∈ ws, wf.id = k) ∨ List.lookup k corr.workflowCache = some fw) →
      List.lookup k corr'.workflowCache = some fw := by
  intro ws
  induction ws with
  | nil =>
    intro corr corr' h k fw hg hsrc
    cases h
    rcases hsrc with ⟨wf, hwf, _⟩ | h'
    · cases hwf
    · exact h'
  | cons wf rest ih =>
    intro corr corr' h k fw hg hsrc
    simp only [initLoop] at h
    cases hgw : ds.getWorkflow wf.id with
    | error e =>
      rw [hgw, except_bind_error] at h
      cases h
    | ok fullWorkflow =>
      rw [hgw, except_bind_ok] at h
      by_cases hk : wf.id = k
      · have hfw : fullWorkflow = fw := by
          rw [hk] at hgw
          rw [hgw] at hg
          cases hg
          rfl
        refine ih _ _ h k fw hg (Or.inr ?_)
        simp only
        rw [← hk, hfw]
        exact mapSet_lookup_self wf.id fw _
      · rcases hsrc with ⟨wf', hwf', hid⟩ | h'
        · rcases List.mem_cons.mp hwf' with heq | hmem
          · exact absurd (heq ▸ hid) hk
          · exact ih _ _ h k fw hg (Or.inl ⟨wf', hmem, hid⟩)
        · refine ih _ _ h k fw hg (Or.inr ?_)
          simp only
          rw [mapSet_lookup_ne wf.id k fullWorkflow (by
            cases hb : k == wf.id
            · rfl
            · exact absurd (by rw [beq_iff_eq] at hb; exact hb.symm) hk)]
          exact h'

theorem initLoop_cache_stable (ds : DataSource) :
    ∀ (ws : List N8nWorkflow) (corr corr' : CorrState),
      (∀ wf ∈ ws, ∀ fw, ds.getWorkflow wf.id = .ok fw →
        List.lookup wf.id corr.workflowCache = some fw) →
      initLoop ds ws corr = .ok corr' →
      corr'.workflowCache = corr.workflowCache := by
  intro ws
  induction ws with
  | nil =>
    intro corr corr' _ h
    cases h
    rfl
  | cons wf rest ih =>
    intro corr corr' hstable h
    simp only [initLoop] at h
    cases hgw : ds.getWorkflow wf.id with
    | error e =>
      rw [hgw, except_bind_error] at h
      cases h
    | ok fullWorkflow =>
      rw [hgw, except_bind_ok] at h
      have hset : mapSet corr.workflowCache wf.id fullWorkflow = corr.workflowCache :=
        mapSet_of_lookup_eq wf.id fullWorkflow _
          (hstable wf (List.mem_cons_self _ _) fullWorkflow hgw)
      have := ih _ _ (by
        intro wf' hwf' fw hg
        simp only [hset]
        exact hstable wf' (List.mem_cons_of_mem _ hwf') fw hg) h
      simp only at this
      rw [this, hset]


/-- C10: `initialize()` is not idempotent on the webhook index — a second pass
against the same data source appends the same mapping block again (doubling an
initially-empty index) while the workflow cache is unchanged, because
`Map.set` overwrites by id; and `correlateExecutions` re-runs `initialize`
exactly when the mapping list is empty: with non-empty mappings the engine
state is returned untouched, with empty mappings the returned state is exactly
the `initialize` output (so a deployment whose workflows declare no webhook
paths leaves the list empty and repeats the full fan-out on every search). -/
theorem c10_initialize_not_idempotent :
    (∀ (ds : DataSource) (st st' st'' : CorrState), st.webhookMappings = [] →
      initCorrelator ds st = .ok st' → initCorrelator ds st' = .ok st'' →
      st''.webhookMappings = st'.webhookMappings ++ st'.webhookMappings ∧
      st''.workflowCache = st'.workflowCache) ∧
    (∀ (ds : DataSource) (st : CorrState) (root : String) (options : CorrOptions)
       (c : CorrState) (s : SearchState), st.webhookMappings ≠ [] →
      correlateExecutionsFull ds st root options = .ok (c, s) → c = st) ∧
    (∀ (ds : DataSource) (st st' : CorrState) (root : String) (options : CorrOptions)
       (c : CorrState) (s : SearchState), st.webhookMappings = [] →
      initCorrelator ds st = .ok st' →
      correlateExecutionsFull ds st root options = .ok (c, s) → c = st') := by
  refine ⟨?_, ?_, ?_⟩
  · intro ds st st' st'' hmaps h₁ h₂
    unfold initCorrelator at h₁ h₂
    cases hws : ds.listWorkflowsActive with
    | error e =>
      rw [hws, except_bind_error] at h₁
      cases h₁
    | ok ws =>
      rw [hws, except_bind_ok] at h₁ h₂
      constructor
      · have m₁ := initLoop_mappings ds ws st st' h₁
        have m₂ := initLoop_mappings ds ws st' st'' h₂
        rw [m₂, m₁, hmaps]
        simp
      · refine initLoop_cache_stable ds ws st' st'' ?_ h₂
        intro wf hwf fw hg
        exact initLoop_cache_lookup ds ws st st' h₁ wf.id fw hg (Or.inl ⟨wf, hwf, rfl⟩)
  · intro ds st root options c s hmaps h
    unfold correlateExecutionsFull at h
    rw [if_neg (show ¬ (st.webhookMappings.isEmpty = true) by
      rw [isEmpty_false_of_ne_nil hmaps]; simp)] at h
    rw [except_bind_ok] at h
    cases hg : ds.getExecution root true with
    | error e =>
      rw [hg, except_bind_error] at h
      cases h
    | ok rootExec =>
      rw [hg, except_bind_ok] at h
      cases hf : findCorrelatedExecutions st ds options.timeWindowMs options.maxDepth 0
          rootExec root ⟨[], [root]⟩ with
      | error e =>
        rw [hf, except_bind_error] at h
        cases h
      | ok s₁ =>
        rw [hf, except_bind_ok] at h
        cases h
        rfl
  · intro ds st st' root options c s hmaps hinit h
    unfold correlateExecutionsFull at h
    rw [if_pos (show st.webhookMappings.isEmpty = true by rw [hmaps]; rfl)] at h
    rw [hinit, except_bind_ok] at h
    cases hg : ds.getExecution root true with
    | error e =>
      rw [hg, except_bind_error] at h
      cases h
    | ok rootExec =>
      rw [hg, except_bind_ok] at h
      cases hf : findCorrelatedExecutions st' ds options.timeWindowMs options.maxDepth 0
          rootExec root ⟨[], [root]⟩ with
      | error e =>
        rw [hf, except_bind_error] at h
        cases h
      | ok s₁ =>
        rw [hf, except_bind_ok] at h
        cases h
        rfl

/-- The state a second `initialize()` pass of the demo source produces: the
mapping appears twice, the cache is unchanged. -/
def demoCorr2 : CorrState :=
  ⟨[⟨"/agent", "W2", "Agent"⟩, ⟨"/agent", "W2", "Agent"⟩], [("W2", demoWorkflow)]⟩

theorem demo_run0 :
    correlateExecutionsFull demoDs ⟨[], []⟩ "E1" {} =
      .ok (demoCorr, ⟨[demoResult], ["E1", "E2"]⟩) := by
  unfold correlateExecutionsFull
  rw [if_pos (show (CorrState.webhookMappings ⟨[], []⟩).isEmpty = true from rfl)]
  rw [show initCorrelator demoDs ⟨[], []⟩ = .ok demoCorr by rfl, except_bind_ok]
  rw [show demoDs.getExecution "E1" true = .ok c3parent from rfl, except_bind_ok]
  show findCorrelatedExecutionsAux demoCorr demoDs 30000 (4 + 1) c3parent "E1"
      ⟨[], ["E1"]⟩ >>= (fun st => Except.ok (demoCorr, st)) =
    Except.ok (demoCorr, ⟨[demoResult], ["E1", "E2"]⟩)
  rw [demo_search, except_bind_ok]

theorem c10_initialize_not_idempotent_witness :
    (demoCorr2.webhookMappings = demoCorr.webhookMappings ++ demoCorr.webhookMappings ∧
      demoCorr2.workflowCache = demoCorr.workflowCache) ∧
    demoCorr = demoCorr ∧ demoCorr = demoCorr :=
  ⟨c10_initialize_not_idempotent.1 demoDs ⟨[], []⟩ demoCorr demoCorr2 rfl (by rfl) (by rfl),
   c10_initialize_not_idempotent.2.1 demoDs demoCorr "E1" {} demoCorr
     ⟨[demoResult], ["E1", "E2"]⟩ (by decide) demo_run,
   c10_initialize_not_idempotent.2.2 demoDs ⟨[], []⟩ demoCorr "E1" {} demoCorr
     ⟨[demoResult], ["E1", "E2"]⟩ rfl (by rfl) demo_run0⟩

end N8nDebug
